import Mathlib

/-!
Verification of the span-extraction QA pipeline in
`nlp_architect/models/transformers/question_answering.py`.

Python strings are modelled as `List Char`, Python floats as `ℚ`,
Python dicts as association lists (`List (key × value)`, unique keys,
first binding wins), and Python exceptions as `Option`/`none`.
-/

abbrev Str := List Char

/-! ### Scorer: `normalize_answer`, `compute_exact`, `compute_f1` -/

/-- Membership in Python's `string.punctuation`, which is exactly the ASCII
ranges 33-47, 58-64, 91-96, 123-126. -/
def isPunct (c : Char) : Bool :=
  (33 ≤ c.toNat && c.toNat ≤ 47) || (58 ≤ c.toNat && c.toNat ≤ 64) ||
  (91 ≤ c.toNat && c.toNat ≤ 96) || (123 ≤ c.toNat && c.toNat ≤ 126)

/-- `lower(text)`: `text.lower()` (ASCII case folding). -/
def lowerStr (s : Str) : Str := s.map Char.toLower

/-- `remove_punc(text)`: drop every `string.punctuation` character. -/
def removePunc (s : Str) : Str := s.filter (fun c => !(isPunct c))

/-- Regex word character (`\w`): alphanumeric or underscore. -/
def isWordChar (c : Char) : Bool := c.isAlphanum || c = '_'

/-- Helper for `remove_articles`: emit one maximal `\w`-run, replacing the
whole-word articles `a`, `an`, `the` by a single space, as the regex
`\b(a|an|the)\b -> " "` does. -/
def emitRun (run : Str) : Str :=
  if run = [] then []
  else if run = ['a'] ∨ run = ['a', 'n'] ∨ run = ['t', 'h', 'e'] then [' ']
  else run

/-- Body of `remove_articles`, scanning the text while accumulating the
current maximal `\w`-run. -/
def removeArticlesAux (run : Str) : Str → Str
  | [] => emitRun run
  | c :: rest =>
      if isWordChar c then removeArticlesAux (run ++ [c]) rest
      else emitRun run ++ c :: removeArticlesAux [] rest

/-- `remove_articles(text)`: `re.sub(r"\b(a|an|the)\b", " ", text)`.
A match of that regex is exactly a maximal `\w`-run equal to one of the
three articles. -/
def removeArticles (s : Str) : Str := removeArticlesAux [] s

/-- Python `str.isspace` characters relevant to `str.split()` /
`str.strip()`: space, `\t`, `\n`, `\v`, `\f`, `\r`. -/
def pyIsSpace (c : Char) : Bool :=
  c.toNat = 32 || c.toNat = 9 || c.toNat = 10 || c.toNat = 11 ||
  c.toNat = 12 || c.toNat = 13

/-- Body of `text.split()`: split on whitespace runs, dropping empty parts;
`run` accumulates the current non-whitespace run. -/
def splitWsAux (run : Str) : Str → List Str
  | [] => if run = [] then [] else [run]
  | c :: rest =>
      if pyIsSpace c then
        if run = [] then splitWsAux [] rest else run :: splitWsAux [] rest
      else splitWsAux (run ++ [c]) rest

/-- `text.split()` with no separator argument. -/
def splitWs (s : Str) : List Str := splitWsAux [] s

/-- `" ".join(xs)`. -/
def joinSpace (xs : List Str) : Str := List.intercalate [' '] xs

/-- `white_space_fix(text)`: `" ".join(text.split())`. -/
def whiteSpaceFix (s : Str) : Str := joinSpace (splitWs s)

/-- `normalize_answer(s)`:
`white_space_fix(remove_articles(remove_punc(lower(s))))`. -/
def normalizeAnswer (s : Str) : Str :=
  whiteSpaceFix (removeArticles (removePunc (lowerStr s)))

/-- `get_tokens(s)`: `[]` for falsy `s`, else `normalize_answer(s).split()`. -/
def getTokens (s : Str) : List Str :=
  if s = [] then [] else splitWs (normalizeAnswer s)

/-- `compute_exact(a_gold, a_pred)`. -/
def computeExact (aGold aPred : Str) : ℚ :=
  if normalizeAnswer aGold = normalizeAnswer aPred then 1 else 0

/-- `sum((Counter(gold_toks) & Counter(pred_toks)).values())`: the size of
the multiset intersection, as a sum of per-token minima of counts. -/
def numSame (goldToks predToks : List Str) : Nat :=
  (goldToks.dedup.map (fun t => min (goldToks.count t) (predToks.count t))).sum

/-! ### Sliding-window chunking (`_convert_examples_to_features`, doc-span loop) -/

structure DocSpan where
  start : Nat
  length : Nat
deriving DecidableEq, Inhabited

/-- The doc-span `while` loop, with explicit fuel: `none` models a run that
does not finish within `fuel` iterations. Each iteration appends one span,
breaks when the span reaches the end of the document, and otherwise
advances by `min(length, doc_stride)`. -/
def docSpansAux (docLen maxTok stride : Nat) : Nat → Nat → Option (List DocSpan)
  | 0, _ => none
  | fuel + 1, startOffset =>
      if startOffset < docLen then
        let l0 := docLen - startOffset
        let len := if l0 > maxTok then maxTok else l0
        if startOffset + len = docLen then some [⟨startOffset, len⟩]
        else
          (docSpansAux docLen maxTok stride fuel (startOffset + min len stride)).map
            (⟨startOffset, len⟩ :: ·)
      else some []

/-- All doc spans for a document of `docLen` sub-tokens with budget `maxTok`
(`max_seq_length - len(query_tokens) - 3`) and stride `doc_stride`.
`docLen + 1` units of fuel suffice whenever the loop terminates at all,
since every iteration advances `start_offset` by at least one. -/
def docSpans (docLen maxTok stride : Nat) : Option (List DocSpan) :=
  docSpansAux docLen maxTok stride (docLen + 1) 0

/-! ### Max-context resolver (`_check_is_max_context`) -/

/-- Whether `position` lies inside the span (`doc_span.start <= position <=
doc_span.start + doc_span.length - 1`), with Python integer arithmetic. -/
def spanContains (s : DocSpan) (position : Nat) : Bool :=
  let e : ℤ := (s.start : ℤ) + (s.length : ℤ) - 1
  !((position : ℤ) < (s.start : ℤ)) && !((position : ℤ) > e)

/-- `min(num_left_context, num_right_context) + 0.01 * doc_span.length`. -/
def spanScore (s : DocSpan) (position : Nat) : ℚ :=
  let e : ℤ := (s.start : ℤ) + (s.length : ℤ) - 1
  let numLeft : ℤ := (position : ℤ) - (s.start : ℤ)
  let numRight : ℤ := e - (position : ℤ)
  ((min numLeft numRight : ℤ) : ℚ) + (1 / 100 : ℚ) * (s.length : ℚ)

/-- The scan of `_check_is_max_context` over `enumerate(doc_spans)`,
tracking `(best_score, best_span_index)`; comparison is strict `>`, so the
first span attaining the maximal score wins. -/
def bestSpanAux (position : Nat) : List DocSpan → Nat → Option (ℚ × Nat) → Option (ℚ × Nat)
  | [], _, best => best
  | s :: rest, idx, best =>
      if spanContains s position then
        let score := spanScore s position
        match best with
        | none => bestSpanAux position rest (idx + 1) (some (score, idx))
        | some (bs, bi) =>
            if score > bs then bestSpanAux position rest (idx + 1) (some (score, idx))
            else bestSpanAux position rest (idx + 1) (some (bs, bi))
      else bestSpanAux position rest (idx + 1) best

/-- `_check_is_max_context(doc_spans, cur_span_index, position)`: equality of
`cur_span_index` with the tracked best index (`False` when no span contains
the position, mirroring `int == None`). -/
def checkIsMaxContext (spans : List DocSpan) (curSpanIndex position : Nat) : Bool :=
  match bestSpanAux position spans 0 none with
  | some (_, bi) => curSpanIndex == bi
  | none => false

/-! ### Feature assembly for one doc span (`_convert_examples_to_features`) -/

structure SpanConfig where
  clsTokenAtEnd : Bool
  clsToken : Str
  sepToken : Str
  padToken : Nat
  sequenceASegmentId : Nat
  sequenceBSegmentId : Nat
  clsTokenSegmentId : Nat
  padTokenSegmentId : Nat
  maskPaddingWithZero : Bool
  sequenceAIsDoc : Bool

/-- `QAInputFeatures`, restricted to the fields the decoding pipeline reads
(inference mode: no training label fields are populated). -/
structure QAInputFeatures where
  uniqueId : Nat
  exampleIndex : Nat
  docSpanIndex : Nat
  tokens : List Str
  tokenToOrigMap : List (Nat × Nat)
  tokenIsMaxContext : List (Nat × Bool)
  inputIds : List Nat
  inputMask : List Nat
  segmentIds : List Nat
  clsIndex : Nat
  pMask : List Nat
  paragraphLen : Nat
  isImpossible : Bool
deriving DecidableEq, Inhabited

/-- The zero-padding `while` loop: append `pad_token` ids, padding mask
values, `pad_token_segment_id`s and `1`s to the four parallel arrays until
`len(input_ids)` reaches `maxSeq`. One fuel unit per appended position;
`maxSeq` units always suffice. -/
def padLoop (cfg : SpanConfig) (maxSeq : Nat) :
    Nat → List Nat × List Nat × List Nat × List Nat →
    List Nat × List Nat × List Nat × List Nat
  | 0, st => st
  | fuel + 1, (ids, mask, segs, pmask) =>
      if ids.length < maxSeq then
        padLoop cfg maxSeq fuel
          (ids ++ [cfg.padToken],
           mask ++ [if cfg.maskPaddingWithZero then 0 else 1],
           segs ++ [cfg.padTokenSegmentId],
           pmask ++ [1])
      else (ids, mask, segs, pmask)

/-- The tokens of one doc-span feature in model-family order: default
`[CLS] query [SEP] chunk [SEP]`, pointer-head family
`chunk [SEP] query [SEP] [CLS]`. -/
def spanTokens (cfg : SpanConfig) (queryTokens paraTokens : List Str) : List Str :=
  (if cfg.clsTokenAtEnd then [] else [cfg.clsToken]) ++
  (if cfg.sequenceAIsDoc then [] else queryTokens ++ [cfg.sepToken]) ++
  paraTokens ++
  ((if cfg.sequenceAIsDoc then [cfg.sepToken] ++ queryTokens else []) ++
    [cfg.sepToken] ++ (if cfg.clsTokenAtEnd then [cfg.clsToken] else []))

/-- The parallel `segment_ids` array of one doc-span feature. -/
def spanSegmentIds (cfg : SpanConfig) (qLen paraLen : Nat) : List Nat :=
  (if cfg.clsTokenAtEnd then [] else [cfg.clsTokenSegmentId]) ++
  (if cfg.sequenceAIsDoc then []
    else List.replicate qLen cfg.sequenceASegmentId ++ [cfg.sequenceASegmentId]) ++
  List.replicate paraLen
    (if cfg.sequenceAIsDoc then cfg.sequenceASegmentId else cfg.sequenceBSegmentId) ++
  ((if cfg.sequenceAIsDoc then
      [cfg.sequenceASegmentId] ++ List.replicate qLen cfg.sequenceBSegmentId
    else []) ++
    [cfg.sequenceBSegmentId] ++ (if cfg.clsTokenAtEnd then [cfg.clsTokenSegmentId] else []))

/-- The parallel `p_mask` array of one doc-span feature (before padding). -/
def spanPMask0 (cfg : SpanConfig) (qLen paraLen : Nat) : List Nat :=
  (if cfg.clsTokenAtEnd then [] else [0]) ++
  (if cfg.sequenceAIsDoc then [] else List.replicate (qLen + 1) 1) ++
  List.replicate paraLen 0 ++
  ((if cfg.sequenceAIsDoc then List.replicate (qLen + 1) 1 else []) ++ [1] ++
    (if cfg.clsTokenAtEnd then [0] else []))

/-- `len(tokens)` at the start of the paragraph loop: the prefix holds the
classification token (when at the front) and the query and separator (when
the document is sequence B). -/
def docBaseOf (cfg : SpanConfig) (qLen : Nat) : Nat :=
  (if cfg.clsTokenAtEnd then 0 else 1) + (if cfg.sequenceAIsDoc then 0 else qLen + 1)

/-- Assembly of one feature for one doc span (lines building `tokens`,
`segment_ids`, `p_mask`, `token_to_orig_map`, `token_is_max_context`,
`input_ids`, `input_mask`, padding, and the three length assertions; the
assertions are modelled by returning `none` when violated). `convert`
models `tokenizer.convert_tokens_to_ids`, applied tokenwise. -/
def buildFeature (cfg : SpanConfig) (convert : Str → Nat) (maxSeq : Nat)
    (uniqueId exampleIndex : Nat) (queryTokens allDocTokens : List Str)
    (tokToOrigIndex : List Nat) (spans : List DocSpan) (spanIndex : Nat)
    (exampleIsImpossible : Bool) : Option QAInputFeatures :=
  let span := spans.getD spanIndex default
  let docBase := docBaseOf cfg queryTokens.length
  let paraTokens : List Str :=
    (List.range span.length).map (fun i => allDocTokens.getD (span.start + i) [])
  let tokenToOrigMap : List (Nat × Nat) :=
    (List.range span.length).map
      (fun i => (docBase + i, tokToOrigIndex.getD (span.start + i) 0))
  let tokenIsMaxContext : List (Nat × Bool) :=
    (List.range span.length).map
      (fun i => (docBase + i, checkIsMaxContext spans spanIndex (span.start + i)))
  let tokens := spanTokens cfg queryTokens paraTokens
  let segmentIds := spanSegmentIds cfg queryTokens.length span.length
  let pMask0 := spanPMask0 cfg queryTokens.length span.length
  let clsIndex := if cfg.clsTokenAtEnd then tokens.length - 1 else 0
  let inputIds0 := tokens.map convert
  let inputMask0 :=
    List.replicate inputIds0.length (if cfg.maskPaddingWithZero then 1 else 0)
  let padded := padLoop cfg maxSeq maxSeq (inputIds0, inputMask0, segmentIds, pMask0)
  if padded.1.length = maxSeq ∧ padded.2.1.length = maxSeq ∧ padded.2.2.1.length = maxSeq then
    some
      { uniqueId := uniqueId
        exampleIndex := exampleIndex
        docSpanIndex := spanIndex
        tokens := tokens
        tokenToOrigMap := tokenToOrigMap
        tokenIsMaxContext := tokenIsMaxContext
        inputIds := padded.1
        inputMask := padded.2.1
        segmentIds := padded.2.2.1
        clsIndex := clsIndex
        pMask := padded.2.2.2
        paragraphLen := span.length
        isImpossible := exampleIsImpossible }
  else none

/-- `compute_f1(a_gold, a_pred)`. -/
def computeF1 (aGold aPred : Str) : ℚ :=
  let goldToks := getTokens aGold
  let predToks := getTokens aPred
  let n := numSame goldToks predToks
  if goldToks.length = 0 ∨ predToks.length = 0 then
    if goldToks = predToks then 1 else 0
  else if n = 0 then 0
  else
    let prec : ℚ := (n : ℚ) / (predToks.length : ℚ)
    let rcl : ℚ := (n : ℚ) / (goldToks.length : ℚ)
    2 * prec * rcl / (prec + rcl)

/-! ### Text re-aligner (`get_final_text` and WordPiece de-tokenization) -/

/-- `hay.find(needle)` for Python strings: index of the first occurrence,
`none` for `-1`. -/
def findSub (needle : Str) : Str → Option Nat
  | [] => if needle = [] then some 0 else none
  | c :: rest =>
      if needle.isPrefixOf (c :: rest) then some 0
      else (findSub needle rest).map (· + 1)

/-- Body of `_strip_spaces(text)`: drop `' '` characters, recording for each
kept character its index `i` in the original text, keyed by its index `k`
in the stripped text (`ns_to_s_map`). Indices are `ℤ` to mirror Python
integer arithmetic on positions. -/
def stripSpacesAux : ℤ → ℤ → Str → Str × List (ℤ × ℤ)
  | _, _, [] => ([], [])
  | i, k, c :: rest =>
      if c = ' ' then stripSpacesAux (i + 1) k rest
      else
        let (ns, m) := stripSpacesAux (i + 1) (k + 1) rest
        (c :: ns, (k, i) :: m)

/-- `_strip_spaces(text)` returning `(ns_text, ns_to_s_map)`. -/
def stripSpaces (s : Str) : Str × List (ℤ × ℤ) := stripSpacesAux 0 0 s

/-- Dict comprehension inverting `tok_ns_to_s_map` into `tok_s_to_ns_map`. -/
def invertMap (m : List (ℤ × ℤ)) : List (ℤ × ℤ) := m.map (fun kv => (kv.2, kv.1))

/-- The two-stage position translation of `get_final_text`: a position in
the tokenized text is translated through `tok_s_to_ns_map` and then
`orig_ns_to_s_map`; `none` models either lookup missing. -/
def translatePos (tokSToNs origNsToS : List (ℤ × ℤ)) (pos : ℤ) : Option ℤ :=
  match List.lookup pos tokSToNs with
  | none => none
  | some ns => List.lookup ns origNsToS

/-- The tokenized, space-joined form of `orig_text` used by
`get_final_text`; `basicTok` models `BasicTokenizer(...).tokenize`. -/
def tokTextOf (basicTok : Str → List Str) (origText : Str) : Str :=
  joinSpace (basicTok origText)

/-- `get_final_text(pred_text, orig_text, do_lower_case)`; the lower-case
flag is absorbed into `basicTok`. Every failure branch returns `origText`
unchanged. -/
def getFinalText (basicTok : Str → List Str) (predText origText : Str) : Str :=
  let tokText := tokTextOf basicTok origText
  match findSub predText tokText with
  | none => origText
  | some startPos =>
      let endPos : ℤ := (startPos : ℤ) + (predText.length : ℤ) - 1
      let (origNsText, origNsToS) := stripSpaces origText
      let (tokNsText, tokNsToS) := stripSpaces tokText
      if origNsText.length ≠ tokNsText.length then origText
      else
        let tokSToNs := invertMap tokNsToS
        match translatePos tokSToNs origNsToS (startPos : ℤ) with
        | none => origText
        | some origStart =>
            match translatePos tokSToNs origNsToS endPos with
            | none => origText
            | some origEnd =>
                (origText.drop origStart.toNat).take (origEnd.toNat + 1 - origStart.toNat)

/-- `s.replace(pat, rep)` with fuel (one unit per consumed character;
`s.length` units suffice). Left-to-right, non-overlapping, as in Python;
only called with non-empty patterns. -/
def replaceStrAux (pat rep : Str) : Nat → Str → Str
  | _, [] => []
  | 0, s => s
  | fuel + 1, c :: rest =>
      if pat ≠ [] ∧ pat.isPrefixOf (c :: rest) then
        rep ++ replaceStrAux pat rep fuel ((c :: rest).drop pat.length)
      else c :: replaceStrAux pat rep fuel rest

/-- `s.replace(pat, rep)`. -/
def replaceStr (s pat rep : Str) : Str := replaceStrAux pat rep s.length s

/-- Python `s.strip()`. -/
def stripWs (s : Str) : Str :=
  ((s.dropWhile pyIsSpace).reverse.dropWhile pyIsSpace).reverse

/-- WordPiece de-tokenization in `write_predictions`: join with spaces,
remove `" ##"` then `"##"`, strip, and normalize interior whitespace. -/
def detokenize (tokTokens : List Str) : Str :=
  let t1 := joinSpace tokTokens
  let t2 := replaceStr t1 [' ', '#', '#'] []
  let t3 := replaceStr t2 ['#', '#'] []
  whiteSpaceFix (stripWs t3)

/-! ### Standard-head span decoder (`write_predictions`) -/

structure RawResult where
  uniqueId : Nat
  startLogits : List ℚ
  endLogits : List ℚ
deriving DecidableEq, Inhabited

structure RawResultExtended where
  uniqueId : Nat
  startTopLogProbs : List ℚ
  startTopIndex : List Nat
  endTopLogProbs : List ℚ
  endTopIndex : List Nat
  clsLogits : ℚ
deriving DecidableEq, Inhabited

structure PrelimPrediction where
  featureIndex : Nat
  startIndex : Nat
  endIndex : Nat
  startLogit : ℚ
  endLogit : ℚ
deriving DecidableEq, Inhabited

structure NbestPrediction where
  text : Str
  startLogit : ℚ
  endLogit : ℚ
deriving DecidableEq, Inhabited

/-- `k in d` for an association-list dict. -/
def dictHasKey {α : Type} (m : List (Nat × α)) (k : Nat) : Bool :=
  (List.lookup k m).isSome

/-- `d.get(k, dflt)` for an association-list dict. -/
def dictGetD {α : Type} (m : List (Nat × α)) (k : Nat) (d : α) : α :=
  (List.lookup k m).getD d

/-- `_get_best_indexes(logits, n_best_size)`: indices of the `n_best_size`
largest logits, by a stable descending sort of `enumerate(logits)`. -/
def getBestIndexes (logits : List ℚ) (nBestSize : Nat) : List Nat :=
  ((logits.enum.insertionSort (fun a b => b.2 ≤ a.2)).map (fun p => p.1)).take nBestSize

/-- The chain of `continue` filters on a candidate `(start_index, end_index)`
pair in `write_predictions`. -/
def validSpan (feature : QAInputFeatures) (maxAnswerLength si ei : Nat) : Bool :=
  !(si ≥ feature.tokens.length) && !(ei ≥ feature.tokens.length) &&
  dictHasKey feature.tokenToOrigMap si && dictHasKey feature.tokenToOrigMap ei &&
  dictGetD feature.tokenIsMaxContext si false && !(ei < si) &&
  !(ei - si + 1 > maxAnswerLength)

/-- The double loop over the start/end shortlists for one feature,
collecting surviving `PrelimPrediction`s in enumeration order. -/
def featurePrelims (nBestSize maxAnswerLength fi : Nat)
    (feature : QAInputFeatures) (result : RawResult) : List PrelimPrediction :=
  (getBestIndexes result.startLogits nBestSize).flatMap fun si =>
    (getBestIndexes result.endLogits nBestSize).filterMap fun ei =>
      if validSpan feature maxAnswerLength si ei then
        some ⟨fi, si, ei, result.startLogits.getD si 0, result.endLogits.getD ei 0⟩
      else none

/-- Per-example mutable state of the feature loop in `write_predictions`. -/
structure PrelimState where
  prelim : List PrelimPrediction
  scoreNull : ℚ
  minNullFeatureIndex : Nat
  nullStartLogit : ℚ
  nullEndLogit : ℚ
deriving DecidableEq, Inhabited

/-- `unique_id_to_result[feature.unique_id]`; `none` models the fatal
`KeyError` for a missing result. -/
def lookupResult (results : List RawResult) (uid : Nat) : Option RawResult :=
  results.find? (fun r => r.uniqueId == uid)

/-- The loop over `enumerate(features)` in `write_predictions`: track the
minimum null score (CLS position logits) and collect the filtered
preliminary predictions of every feature. -/
def prelimLoop (v2 : Bool) (nBestSize maxAnswerLength : Nat) (results : List RawResult) :
    List (Nat × QAInputFeatures) → PrelimState → Option PrelimState
  | [], st => some st
  | (fi, f) :: rest, st =>
      match lookupResult results f.uniqueId with
      | none => none
      | some result =>
          let st1 :=
            if v2 then
              let fns := result.startLogits.getD 0 0 + result.endLogits.getD 0 0
              if fns < st.scoreNull then
                { st with
                  scoreNull := fns
                  minNullFeatureIndex := fi
                  nullStartLogit := result.startLogits.getD 0 0
                  nullEndLogit := result.endLogits.getD 0 0 }
              else st
            else st
          prelimLoop v2 nBestSize maxAnswerLength results rest
            { st1 with
              prelim := st1.prelim ++ featurePrelims nBestSize maxAnswerLength fi f result }

/-- The literal text `"empty"` used for nonce predictions. -/
def emptyWordStr : Str := ['e', 'm', 'p', 't', 'y']

/-- The n-best selection loop of `write_predictions`: walk the sorted
preliminary predictions, materialize each non-null candidate's text
(de-tokenization plus `get_final_text`), skip texts already seen, and stop
once `n_best_size` candidates are kept. A null candidate
(`start_index == 0`) contributes the empty string, recorded in `seen` and
appended without a duplicate check, as in the source. -/
def nbestLoop (basicTok : Str → List Str) (nBestSize : Nat)
    (features : List QAInputFeatures) (docTokens : List Str) :
    List PrelimPrediction → List Str → List NbestPrediction →
    List Str × List NbestPrediction
  | [], seen, nbest => (seen, nbest)
  | pred :: rest, seen, nbest =>
      if nbest.length ≥ nBestSize then (seen, nbest)
      else
        let feature := features.getD pred.featureIndex default
        if pred.startIndex > 0 then
          let tokTokens :=
            (feature.tokens.drop pred.startIndex).take (pred.endIndex + 1 - pred.startIndex)
          let origDocStart := dictGetD feature.tokenToOrigMap pred.startIndex 0
          let origDocEnd := dictGetD feature.tokenToOrigMap pred.endIndex 0
          let origTokens := (docTokens.drop origDocStart).take (origDocEnd + 1 - origDocStart)
          let tokText := detokenize tokTokens
          let origText := joinSpace origTokens
          let finalText := getFinalText basicTok tokText origText
          if seen.contains finalText then
            nbestLoop basicTok nBestSize features docTokens rest seen nbest
          else
            nbestLoop basicTok nBestSize features docTokens rest (finalText :: seen)
              (nbest ++ [⟨finalText, pred.startLogit, pred.endLogit⟩])
        else
          nbestLoop basicTok nBestSize features docTokens rest (([] : Str) :: seen)
            (nbest ++ [⟨[], pred.startLogit, pred.endLogit⟩])

/-- The `version_2_with_negative` post-processing of the n-best list:
force-append the empty option with the tracked null logits when it was not
naturally selected, then guard the single-candidate edge case with a
zero-scored `"empty"` nonce entry at the front. -/
def nbestPostV2 (seen : List Str) (nullStartLogit nullEndLogit : ℚ)
    (nbest : List NbestPrediction) : List NbestPrediction :=
  let nb1 :=
    if !(seen.contains ([] : Str)) then nbest ++ [⟨[], nullStartLogit, nullEndLogit⟩]
    else nbest
  if nb1.length = 1 then ⟨emptyWordStr, 0, 0⟩ :: nb1 else nb1

/-- The no-valid-prediction fallback: a zero-scored `"empty"` nonce entry. -/
def ensureNonempty (nbest : List NbestPrediction) : List NbestPrediction :=
  if nbest.isEmpty then [⟨emptyWordStr, 0, 0⟩] else nbest

/-- `_compute_softmax(scores)`, with `math.exp` abstracted as `expF` (the
claims under verification do not depend on the exponential itself). -/
def computeSoftmax (expF : ℚ → ℚ) (scores : List ℚ) : List ℚ :=
  match scores with
  | [] => []
  | s :: rest =>
      let maxScore := rest.foldl (fun a b => if b > a then b else a) s
      let expScores := (s :: rest).map (fun x => expF (x - maxScore))
      let totalSum := expScores.foldl (· + ·) 0
      expScores.map (fun x => x / totalSum)

/-- Observable per-example output of `write_predictions`: the final
predicted text, the recorded null-odds score difference (when
`version_2_with_negative`), the final n-best list, its softmax
probabilities, and the tracked minimum null score. -/
structure DecodeOut where
  predText : Str
  scoreDiff : Option ℚ
  nbest : List NbestPrediction
  probs : List ℚ
  scoreNull : ℚ
deriving DecidableEq

/-- The final answer selection of `write_predictions` for one example:
without null answers report the top n-best text; with null answers record
`score_null - best_non_null_start_logit - best_non_null_end_logit` and
report the empty string exactly when it exceeds the threshold. `none`
models the `AttributeError` when `best_non_null_entry` was never assigned
(and the impossible empty n-best indexing). -/
def selectPrediction (v2 : Bool) (nullScoreDiffThreshold scoreNull : ℚ)
    (nbest2 : List NbestPrediction) (probs : List ℚ) : Option DecodeOut :=
  let bestNonNullEntry := nbest2.find? (fun e => !e.text.isEmpty)
  if v2 then
    match bestNonNullEntry with
    | none => none
    | some e =>
        let scoreDiff := scoreNull - e.startLogit - e.endLogit
        some ⟨if scoreDiff > nullScoreDiffThreshold then [] else e.text,
              some scoreDiff, nbest2, probs, scoreNull⟩
  else
    match nbest2 with
    | [] => none
    | e0 :: _ => some ⟨e0.text, none, nbest2, probs, scoreNull⟩

/-- One example's pass through `write_predictions`: preliminary-prediction
collection, the synthesized null candidate, the stable descending sort by
`start_logit + end_logit`, n-best selection, the `version_2` empty-option
post-processing, softmax scoring, and final answer selection against
`null_score_diff_threshold`. `none` models the fatal paths (missing raw
result; `best_non_null_entry` never assigned). -/
def decodeExample (expF : ℚ → ℚ) (basicTok : Str → List Str) (v2 : Bool)
    (nBestSize maxAnswerLength : Nat) (nullScoreDiffThreshold : ℚ)
    (docTokens : List Str) (features : List QAInputFeatures)
    (results : List RawResult) : Option DecodeOut :=
  match prelimLoop v2 nBestSize maxAnswerLength results features.enum ⟨[], 1000000, 0, 0, 0⟩ with
  | none => none
  | some st =>
      let prelim1 :=
        if v2 then
          st.prelim ++ [⟨st.minNullFeatureIndex, 0, 0, st.nullStartLogit, st.nullEndLogit⟩]
        else st.prelim
      let sortedPrelim :=
        prelim1.insertionSort (fun a b => b.startLogit + b.endLogit ≤ a.startLogit + a.endLogit)
      let seenNbest := nbestLoop basicTok nBestSize features docTokens sortedPrelim [] []
      let nbest1 :=
        if v2 then nbestPostV2 seenNbest.1 st.nullStartLogit st.nullEndLogit seenNbest.2
        else seenNbest.2
      let nbest2 := ensureNonempty nbest1
      let totalScores := nbest2.map (fun e => e.startLogit + e.endLogit)
      let probs := computeSoftmax expF totalScores
      selectPrediction v2 nullScoreDiffThreshold st.scoreNull nbest2 probs

/-! ### Pointer-head span decoder (`write_predictions_extended`) -/

/-- The `continue` filters of `write_predictions_extended`: index bounds
use `feature.paragraph_len - 1` (Python integer arithmetic) instead of the
chunk token length, then max-context ownership, ordering, and maximum
answer length as in the standard head. -/
def validSpanExt (feature : QAInputFeatures) (maxAnswerLength si ei : Nat) : Bool :=
  !((si : ℤ) ≥ (feature.paragraphLen : ℤ) - 1) &&
  !((ei : ℤ) ≥ (feature.paragraphLen : ℤ) - 1) &&
  dictGetD feature.tokenIsMaxContext si false && !(ei < si) &&
  !(ei - si + 1 > maxAnswerLength)

/-- The `start_n_top × end_n_top` cross-product loop of
`write_predictions_extended` for one feature. -/
def featurePrelimsExt (startNTop endNTop maxAnswerLength fi : Nat)
    (feature : QAInputFeatures) (result : RawResultExtended) : List PrelimPrediction :=
  (List.range startNTop).flatMap fun i =>
    (List.range endNTop).filterMap fun j =>
      let startIndex := result.startTopIndex.getD i 0
      let jIndex := i * endNTop + j
      let endIndex := result.endTopIndex.getD jIndex 0
      if validSpanExt feature maxAnswerLength startIndex endIndex then
        some ⟨fi, startIndex, endIndex, result.startTopLogProbs.getD i 0,
              result.endTopLogProbs.getD jIndex 0⟩
      else none

/-! ### Best-threshold search (`find_best_thresh_v2`) -/

/-- `sorted(na_probs, key=lambda k: na_probs[k])`, kept as (qid, score)
pairs; a stable insertion sort matches Python's stable `sorted`. -/
def sortByNaProb (naProbs : List (Str × ℚ)) : List (Str × ℚ) :=
  naProbs.insertionSort (fun a b => a.2 ≤ b.2)

/-- The per-question increments of the threshold sweep, in sweep order:
questions missing from `scores` are skipped; a question with a gold answer
contributes its raw score; one without contributes `-1` if the system
predicted a non-empty answer and `0` otherwise. Each increment is paired
with the question's null-odds value; `none` models a `KeyError` on
`qid_to_has_ans` or `preds`. -/
def sweepDeltas (scores : List (Str × ℚ)) (predsD : List (Str × Str))
    (qidToHasAns : List (Str × Bool)) : List (Str × ℚ) → Option (List (ℚ × ℚ))
  | [] => some []
  | (qid, na) :: rest =>
      match List.lookup qid scores with
      | none => sweepDeltas scores predsD qidToHasAns rest
      | some sc =>
          match List.lookup qid qidToHasAns with
          | none => none
          | some ha =>
              if ha then (sweepDeltas scores predsD qidToHasAns rest).map ((sc, na) :: ·)
              else
                match List.lookup qid predsD with
                | none => none
                | some p =>
                    (sweepDeltas scores predsD qidToHasAns rest).map
                      (((if p.isEmpty then (0 : ℚ) else -1), na) :: ·)

/-- The running-total sweep of `find_best_thresh_v2`: starting from
`cur = best = num_no_ans` and `thresh = 0.0`, add each increment and record
`(cur_score, na_probs[qid])` whenever the running total strictly exceeds
the best seen so far. -/
def sweepLoop : List (ℚ × ℚ) → ℚ → ℚ → ℚ → ℚ × ℚ
  | [], _, best, thresh => (best, thresh)
  | (d, na) :: rest, cur, best, thresh =>
      let cur2 := cur + d
      if cur2 > best then sweepLoop rest cur2 cur2 na
      else sweepLoop rest cur2 best thresh

/-- The second loop of `find_best_thresh_v2`: count questions with gold
answers and sum their raw scores (the count increments even when the score
is missing, as in the source). -/
def hasAnsLoop (scores : List (Str × ℚ)) (qidToHasAns : List (Str × Bool)) :
    List (Str × ℚ) → Option (ℚ × ℚ)
  | [] => some (0, 0)
  | (qid, _) :: rest =>
      match List.lookup qid qidToHasAns with
      | none => none
      | some ha =>
          if !ha then hasAnsLoop scores qidToHasAns rest
          else
            match List.lookup qid scores with
            | none => (hasAnsLoop scores qidToHasAns rest).map (fun p => (p.1, p.2 + 1))
            | some sc => (hasAnsLoop scores qidToHasAns rest).map (fun p => (p.1 + sc, p.2 + 1))

/-- `find_best_thresh_v2(preds, scores, na_probs, qid_to_has_ans)` returning
`(best percentage, best threshold, has-answer average)`; `none` models the
fatal paths (`KeyError`, division by zero). -/
def findBestThreshV2 (predsD : List (Str × Str)) (scores : List (Str × ℚ))
    (naProbs : List (Str × ℚ)) (qidToHasAns : List (Str × Bool)) :
    Option (ℚ × ℚ × ℚ) :=
  let numNoAns : ℚ := ((qidToHasAns.filter (fun kv => !kv.2)).length : ℚ)
  let qidList := sortByNaProb naProbs
  match sweepDeltas scores predsD qidToHasAns qidList with
  | none => none
  | some ds =>
      let bt := sweepLoop ds numNoAns numNoAns 0
      match hasAnsLoop scores qidToHasAns qidList with
      | none => none
      | some hp =>
          if scores.length = 0 ∨ hp.2 = 0 then none
          else some (100 * bt.1 / (scores.length : ℚ), bt.2, hp.1 / hp.2)

/-! ### Specification-side definitions for the threshold sweep -/

/-- Running totals of the sweep after each processed question. -/
def prefixTotals : ℚ → List (ℚ × ℚ) → List ℚ
  | _, [] => []
  | cur, (d, _) :: rest => (cur + d) :: prefixTotals (cur + d) rest

/-- The null-odds value of the first question at which the running total
attains `m`. -/
def threshAt (m : ℚ) : ℚ → List (ℚ × ℚ) → ℚ
  | _, [] => 0
  | cur, (d, na) :: rest => if cur + d = m then na else threshAt m (cur + d) rest

/-- The maximum over the initial value and all running totals. -/
def specBestScore (c0 : ℚ) (ds : List (ℚ × ℚ)) : ℚ := (prefixTotals c0 ds).foldl max c0

/-- The threshold at which the running total attains its maximum: `0.0`
when the maximum is already attained before any question is processed. -/
def specThresh (c0 : ℚ) (ds : List (ℚ × ℚ)) : ℚ :=
  let m := specBestScore c0 ds
  if m > c0 then threshAt m c0 ds else 0

/-- The per-question increments asserted by the claim under test: `+1` when
a question has no gold answer and the system predicted none (the code uses
`0` there), `-1` when it has no gold answer but the system predicted
something, else the raw score. -/
def claimedDeltas (scores : List (Str × ℚ)) (predsD : List (Str × Str))
    (qidToHasAns : List (Str × Bool)) : List (Str × ℚ) → Option (List (ℚ × ℚ))
  | [] => some []
  | (qid, na) :: rest =>
      match List.lookup qid scores with
      | none => claimedDeltas scores predsD qidToHasAns rest
      | some sc =>
          match List.lookup qid qidToHasAns with
          | none => none
          | some ha =>
              if ha then (claimedDeltas scores predsD qidToHasAns rest).map ((sc, na) :: ·)
              else
                match List.lookup qid predsD with
                | none => none
                | some p =>
                    (claimedDeltas scores predsD qidToHasAns rest).map
                      (((if p.isEmpty then (1 : ℚ) else -1), na) :: ·)

/-- The `(best percentage, best threshold)` pair asserted by the claim
under test: sweep the claimed increments, report the maximum running total
as a percentage and the threshold at which it is attained. -/
def claimedSweep (predsD : List (Str × Str)) (scores : List (Str × ℚ))
    (naProbs : List (Str × ℚ)) (qidToHasAns : List (Str × Bool)) : Option (ℚ × ℚ) :=
  let numNoAns : ℚ := ((qidToHasAns.filter (fun kv => !kv.2)).length : ℚ)
  let qidList := sortByNaProb naProbs
  match claimedDeltas scores predsD qidToHasAns qidList with
  | none => none
  | some ds =>
      some (100 * specBestScore numNoAns ds / (scores.length : ℚ), specThresh numNoAns ds)

/-! ### Specification-side definitions for the max-context resolver -/

/-- The claim's characterization of the max-context owner: the first
enumerated span containing the position among those maximizing
`min(left_context, right_context) + 0.01 * span_length`. -/
def firstArgmaxSpec (spans : List DocSpan) (position i : Nat) : Prop :=
  i < spans.length ∧ spanContains (spans.getD i default) position = true ∧
  (∀ j, j < spans.length → spanContains (spans.getD j default) position = true →
    spanScore (spans.getD j default) position ≤ spanScore (spans.getD i default) position) ∧
  (∀ j, j < i → spanContains (spans.getD j default) position = true →
    spanScore (spans.getD j default) position < spanScore (spans.getD i default) position)

/-- Invariant of the `_check_is_max_context` scan: the accumulator is the
first-seen argmax summary of the spans processed so far (`none` iff no
processed span contains the position). -/
def accOk (spans : List DocSpan) (position : Nat) : Option (ℚ × Nat) → Prop
  | none => ∀ s ∈ spans, spanContains s position = false
  | some (b, bi) =>
      bi < spans.length ∧ spanContains (spans.getD bi default) position = true ∧
      b = spanScore (spans.getD bi default) position ∧
      (∀ j, j < spans.length → spanContains (spans.getD j default) position = true →
        spanScore (spans.getD j default) position ≤ b) ∧
      (∀ j, j < bi → spanContains (spans.getD j default) position = true →
        spanScore (spans.getD j default) position < b)

/-! ## Theorems -/

/-! ### Scorer lemmas -/

theorem numSame_eq_sum (g p : List Str) :
    numSame g p = ∑ t ∈ g.toFinset ∪ p.toFinset, min (g.count t) (p.count t) := by
  unfold numSame
  have hft : g.dedup.toFinset = g.toFinset := by
    ext t; simp [List.mem_toFinset, List.mem_dedup]
  have h2 : (∑ t ∈ g.dedup.toFinset, min (g.count t) (p.count t)) =
      (g.dedup.map (fun t => min (g.count t) (p.count t))).sum :=
    List.sum_toFinset (fun t : Str => min (g.count t) (p.count t)) g.nodup_dedup
  rw [← h2, hft]
  apply Finset.sum_subset Finset.subset_union_left
  intro t _ ht
  have : t ∉ g := fun hm => ht (List.mem_toFinset.mpr hm)
  simp [List.count_eq_zero_of_not_mem this]

theorem numSame_comm (g p : List Str) : numSame g p = numSame p g := by
  rw [numSame_eq_sum, numSame_eq_sum, Finset.union_comm]
  exact Finset.sum_congr rfl fun t _ => min_comm _ _

/-- Claim C9: `normalize_answer` lowercases, strips punctuation, removes
whole-word articles and collapses whitespace, so
`normalize_answer("The Japan.") = "japan"` and
`compute_f1("the japan", "Japan") = 1.0`; and in `compute_f1`, if either
normalized token bag is empty the score is `1` if both bags agree and `0`
otherwise. -/
theorem computeF1_concrete_and_empty_bags :
    normalizeAnswer ['T', 'h', 'e', ' ', 'J', 'a', 'p', 'a', 'n', '.'] =
        ['j', 'a', 'p', 'a', 'n'] ∧
    computeF1 ['t', 'h', 'e', ' ', 'j', 'a', 'p', 'a', 'n'] ['J', 'a', 'p', 'a', 'n'] = 1 ∧
    ∀ g p : Str, getTokens g = [] ∨ getTokens p = [] →
      computeF1 g p = (if getTokens g = getTokens p then 1 else 0) := by
  refine ⟨by decide, ?_, ?_⟩
  · have hg : getTokens ['t', 'h', 'e', ' ', 'j', 'a', 'p', 'a', 'n'] =
        [['j', 'a', 'p', 'a', 'n']] := by decide
    have hp : getTokens ['J', 'a', 'p', 'a', 'n'] = [['j', 'a', 'p', 'a', 'n']] := by decide
    have hs : numSame [['j', 'a', 'p', 'a', 'n']] [['j', 'a', 'p', 'a', 'n']] = 1 := by decide
    simp only [computeF1, hg, hp, hs]
    norm_num
  · intro g p h
    rcases h with h | h <;> simp [computeF1, h, eq_comm]

/-- Witness for C9: the empty-bag rule applied at a concrete input (empty
gold text against a punctuation-only prediction). -/
theorem computeF1_concrete_and_empty_bags_witness :
    computeF1 [] ['.'] = (if getTokens ([] : Str) = getTokens ['.'] then 1 else 0) :=
  computeF1_concrete_and_empty_bags.2.2 [] ['.'] (Or.inl (by decide))

/-- Claim C10: `compute_f1` is symmetric in its two arguments: the multiset
intersection count, the empty-bag rule, and the harmonic mean are all
invariant under swapping the gold and predicted token bags. -/
theorem computeF1_symm : ∀ a b : Str, computeF1 a b = computeF1 b a := by
  intro a b
  simp only [computeF1]
  have hn : numSame (getTokens a) (getTokens b) = numSame (getTokens b) (getTokens a) :=
    numSame_comm _ _
  by_cases h1 : (getTokens a).length = 0 ∨ (getTokens b).length = 0
  · rw [if_pos h1, if_pos h1.symm]
    by_cases he : getTokens a = getTokens b <;> simp [he, eq_comm]
  · have h1s : ¬((getTokens b).length = 0 ∨ (getTokens a).length = 0) := fun h => h1 h.symm
    rw [if_neg h1, if_neg h1s, hn]
    by_cases h0 : numSame (getTokens b) (getTokens a) = 0
    · simp [h0]
    · rw [if_neg h0, if_neg h0]
      ring

/-! ### Chunking lemmas -/

theorem docSpansAux_spec (docLen maxTok stride : Nat) (hm : 1 ≤ maxTok) (hs : 1 ≤ stride) :
    ∀ fuel startOffset, startOffset < docLen → docLen - startOffset ≤ fuel →
    ∃ spans, docSpansAux docLen maxTok stride fuel startOffset = some spans ∧
      (∀ p, startOffset ≤ p → p < docLen → ∃ s ∈ spans, s.start ≤ p ∧ p < s.start + s.length) ∧
      (∀ s ∈ spans, s.length ≤ maxTok ∧ 1 ≤ s.length ∧ s.start + s.length ≤ docLen) ∧
      (∃ sl, spans.getLast? = some sl ∧ sl.start + sl.length = docLen) := by
  intro fuel
  induction fuel with
  | zero => intro startOffset hlt hle; omega
  | succ fuel ih =>
      intro startOffset hlt hle
      rw [docSpansAux, if_pos hlt]
      have hlen1 : 1 ≤ (if docLen - startOffset > maxTok then maxTok else docLen - startOffset) := by
        split <;> omega
      have hlenle : (if docLen - startOffset > maxTok then maxTok else docLen - startOffset) ≤
          docLen - startOffset := by
        split <;> omega
      have hlenmax : (if docLen - startOffset > maxTok then maxTok else docLen - startOffset) ≤
          maxTok := by
        split <;> omega
      set len := if docLen - startOffset > maxTok then maxTok else docLen - startOffset with hlendef
      by_cases hbreak : startOffset + len = docLen
      · rw [if_pos hbreak]
        refine ⟨[⟨startOffset, len⟩], rfl, ?_, ?_, ?_⟩
        · intro p hp1 hp2
          exact ⟨⟨startOffset, len⟩, List.mem_singleton_self _, hp1,
            show p < startOffset + len by omega⟩
        · intro s hsmem
          rcases List.mem_singleton.mp hsmem with rfl
          exact ⟨hlenmax, hlen1, show startOffset + len ≤ docLen by omega⟩
        · exact ⟨⟨startOffset, len⟩, rfl, hbreak⟩
      · rw [if_neg hbreak]
        have hnextlt : startOffset + min len stride < docLen := by
          have h1 : min len stride ≤ len := Nat.min_le_left _ _
          omega
        have hnextfuel : docLen - (startOffset + min len stride) ≤ fuel := by
          have h1 : 1 ≤ min len stride := by
            have := Nat.le_min.mpr ⟨hlen1, hs⟩
            omega
          omega
        obtain ⟨spans, heq, hcov, hbnd, sl, hlast, hslend⟩ := ih _ hnextlt hnextfuel
        refine ⟨⟨startOffset, len⟩ :: spans, by rw [heq]; rfl, ?_, ?_, ?_⟩
        · intro p hp1 hp2
          by_cases hc : p < startOffset + len
          · exact ⟨⟨startOffset, len⟩, List.mem_cons_self _ _, hp1,
              show p < startOffset + len from hc⟩
          · have hge : startOffset + min len stride ≤ p := by
              have h1 : min len stride ≤ len := Nat.min_le_left _ _
              omega
            obtain ⟨sp, hmem, h3, h4⟩ := hcov p hge hp2
            exact ⟨sp, List.mem_cons_of_mem _ hmem, h3, h4⟩
        · intro s hsmem
          rcases List.mem_cons.mp hsmem with rfl | hmem
          · exact ⟨hlenmax, hlen1, show startOffset + len ≤ docLen by omega⟩
          · exact hbnd s hmem
        · have hne : spans ≠ [] := by
            rintro rfl; simp at hlast
          obtain ⟨s1, rest, rfl⟩ := List.exists_cons_of_ne_nil hne
          exact ⟨sl, by simpa using hlast, hslend⟩

/-- Claim C3 (amended): for a non-empty sub-tokenized document with
positive budget `max_seq_length - len(query_tokens) - 3` and a positive
`doc_stride` (the repository default is 128; with stride 0 the loop
diverges, see the counterexample), the doc-span loop terminates and
yields spans that cover every document sub-token index, never exceed the
budget, never extend past the document, and whose final span ends exactly
at the last document sub-token. -/
theorem docSpans_terminate_cover (docLen maxTok stride : Nat)
    (hd : 1 ≤ docLen) (hm : 1 ≤ maxTok) (hs : 1 ≤ stride) :
    ∃ spans, docSpans docLen maxTok stride = some spans ∧
      (∀ p, p < docLen → ∃ s ∈ spans, s.start ≤ p ∧ p < s.start + s.length) ∧
      (∀ s ∈ spans, s.length ≤ maxTok ∧ s.start + s.length ≤ docLen) ∧
      (∃ sl, spans.getLast? = some sl ∧ sl.start + sl.length = docLen) := by
  obtain ⟨spans, heq, hcov, hbnd, hlast⟩ :=
    docSpansAux_spec docLen maxTok stride hm hs (docLen + 1) 0 hd (by omega)
  exact ⟨spans, heq, fun p hp => hcov p (Nat.zero_le _) hp,
    fun s hsmem => ⟨(hbnd s hsmem).1, (hbnd s hsmem).2.2⟩, hlast⟩

/-- Witness for C3: a document of 5 sub-tokens, budget 3, stride 1 (the
two-span scenario of the spec, here three overlapping spans). -/
theorem docSpans_terminate_cover_witness :
    ∃ spans, docSpans 5 3 1 = some spans ∧
      (∀ p, p < 5 → ∃ s ∈ spans, s.start ≤ p ∧ p < s.start + s.length) ∧
      (∀ s ∈ spans, s.length ≤ 3 ∧ s.start + s.length ≤ 5) ∧
      (∃ sl, spans.getLast? = some sl ∧ sl.start + sl.length = 5) :=
  docSpans_terminate_cover 5 3 1 (by decide) (by decide) (by decide)

theorem docSpansAux_stride_zero_stuck : ∀ fuel, docSpansAux 5 3 0 fuel 0 = none := by
  intro fuel
  induction fuel with
  | zero => rfl
  | succ fuel ih => simp [docSpansAux, ih]

/-- Counterexample for C3 as stated: with a non-empty 5-sub-token document
and positive budget 3 but `doc_stride = 0`, the doc-span loop advances
`start_offset` by `min(length, 0) = 0` on every iteration and never
reaches the break, so it does not terminate: the modelled loop returns
`none` at its standard fuel and indeed at any fuel (the preceding lemma),
so no span list is ever produced. The frozen claim's provisos (non-empty
document, positive budget) do not exclude this input. -/
theorem docSpans_claim_counterexample :
    docSpans 5 3 0 = none ∧ docSpansAux 5 3 0 1000 0 = none :=
  ⟨docSpansAux_stride_zero_stuck 6, docSpansAux_stride_zero_stuck 1000⟩

/-! ### Max-context lemmas -/

theorem getD_append_lt {α : Type} [Inhabited α] (l l' : List α) (j : Nat) (h : j < l.length) :
    (l ++ l').getD j default = l.getD j default := by
  simp [List.getD_eq_getElem?_getD, List.getElem?_append, h]

theorem getD_append_self {α : Type} [Inhabited α] (l : List α) (s : α) :
    (l ++ [s]).getD l.length default = s := by
  simp [List.getD_eq_getElem?_getD, List.getElem?_append]


theorem getD_mem_of_lt {α : Type} [Inhabited α] (l : List α) (j : Nat) (h : j < l.length) :
    l.getD j default ∈ l := by
  rw [List.getD_eq_getElem l default h]
  exact List.getElem_mem h

theorem bestSpanAux_cons_skip (position : Nat) (s : DocSpan) (rest : List DocSpan)
    (idx : Nat) (acc : Option (ℚ × Nat)) (hc : spanContains s position = false) :
    bestSpanAux position (s :: rest) idx acc = bestSpanAux position rest (idx + 1) acc := by
  simp [bestSpanAux, hc]

theorem bestSpanAux_cons_none (position : Nat) (s : DocSpan) (rest : List DocSpan)
    (idx : Nat) (hc : spanContains s position = true) :
    bestSpanAux position (s :: rest) idx none =
      bestSpanAux position rest (idx + 1) (some (spanScore s position, idx)) := by
  simp [bestSpanAux, hc]

theorem bestSpanAux_cons_gt (position : Nat) (s : DocSpan) (rest : List DocSpan)
    (idx : Nat) (bs : ℚ) (bi : Nat) (hc : spanContains s position = true)
    (hgt : spanScore s position > bs) :
    bestSpanAux position (s :: rest) idx (some (bs, bi)) =
      bestSpanAux position rest (idx + 1) (some (spanScore s position, idx)) := by
  simp [bestSpanAux, hc, hgt]

theorem bestSpanAux_cons_le (position : Nat) (s : DocSpan) (rest : List DocSpan)
    (idx : Nat) (bs : ℚ) (bi : Nat) (hc : spanContains s position = true)
    (hgt : ¬spanScore s position > bs) :
    bestSpanAux position (s :: rest) idx (some (bs, bi)) =
      bestSpanAux position rest (idx + 1) (some (bs, bi)) := by
  simp [bestSpanAux, hc, hgt]

theorem bestSpanAux_invariant (position : Nat) :
    ∀ (l pre : List DocSpan) (acc : Option (ℚ × Nat)),
      accOk pre position acc →
      accOk (pre ++ l) position (bestSpanAux position l pre.length acc) := by
  intro l
  induction l with
  | nil => intro pre acc h; simpa [bestSpanAux] using h
  | cons s rest ih =>
      intro pre acc h
      have hsplit : pre ++ s :: rest = (pre ++ [s]) ++ rest := by simp
      have hlen : (pre ++ [s]).length = pre.length + 1 := by simp
      by_cases hc : spanContains s position
      · cases acc with
        | none =>
            have h1 : accOk (pre ++ [s]) position (some (spanScore s position, pre.length)) := by
              refine ⟨by simp, by rw [getD_append_self]; exact hc, by rw [getD_append_self], ?_, ?_⟩
              · intro j hj hcj
                rcases Nat.lt_succ_iff_lt_or_eq.mp (by simpa using hj) with hj' | rfl
                · rw [getD_append_lt _ _ _ hj'] at hcj
                  have hx := h _ (getD_mem_of_lt pre j hj')
                  rw [hcj] at hx
                  simp at hx
                · rw [getD_append_self]
              · intro j hj hcj
                rw [getD_append_lt _ _ _ hj] at hcj
                have hx := h _ (getD_mem_of_lt pre j hj)
                rw [hcj] at hx
                simp at hx
            have h2 := ih (pre ++ [s]) _ h1
            rw [hlen] at h2
            rw [hsplit, bestSpanAux_cons_none position s rest pre.length hc]
            exact h2
        | some bpair =>
            obtain ⟨bs, bi⟩ := bpair
            obtain ⟨hb1, hb2, hb3, hb4, hb5⟩ := h
            by_cases hgt : spanScore s position > bs
            · have h1 : accOk (pre ++ [s]) position (some (spanScore s position, pre.length)) := by
                refine ⟨by simp, by rw [getD_append_self]; exact hc, by rw [getD_append_self], ?_, ?_⟩
                · intro j hj hcj
                  rcases Nat.lt_succ_iff_lt_or_eq.mp (by simpa using hj) with hj' | rfl
                  · rw [getD_append_lt _ _ _ hj'] at hcj ⊢
                    exact le_of_lt (lt_of_le_of_lt (hb4 j hj' hcj) hgt)
                  · rw [getD_append_self]
                · intro j hj hcj
                  rw [getD_append_lt _ _ _ hj] at hcj ⊢
                  exact lt_of_le_of_lt (hb4 j hj hcj) hgt
              have h2 := ih (pre ++ [s]) _ h1
              rw [hlen] at h2
              rw [hsplit, bestSpanAux_cons_gt position s rest pre.length bs bi hc hgt]
              exact h2
            · have h1 : accOk (pre ++ [s]) position (some (bs, bi)) := by
                refine ⟨by simp; omega, by rw [getD_append_lt _ _ _ hb1]; exact hb2,
                  by rw [getD_append_lt _ _ _ hb1]; exact hb3, ?_, ?_⟩
                · intro j hj hcj
                  rcases Nat.lt_succ_iff_lt_or_eq.mp (by simpa using hj) with hj' | rfl
                  · rw [getD_append_lt _ _ _ hj'] at hcj ⊢
                    exact hb4 j hj' hcj
                  · rw [getD_append_self] at hcj ⊢
                    exact le_of_not_lt hgt
                · intro j hj hcj
                  have hj' : j < pre.length := lt_trans hj hb1
                  rw [getD_append_lt _ _ _ hj'] at hcj ⊢
                  exact hb5 j hj hcj
              have h2 := ih (pre ++ [s]) _ h1
              rw [hlen] at h2
              rw [hsplit, bestSpanAux_cons_le position s rest pre.length bs bi hc hgt]
              exact h2
      · have hcf : spanContains s position = false := by simpa using hc
        have h1 : accOk (pre ++ [s]) position acc := by
          cases acc with
          | none =>
              intro t ht
              rcases List.mem_append.mp ht with ht | ht
              · exact h t ht
              · rcases List.mem_singleton.mp ht with rfl
                exact hcf
          | some bpair =>
              obtain ⟨bs, bi⟩ := bpair
              obtain ⟨hb1, hb2, hb3, hb4, hb5⟩ := h
              refine ⟨by simp; omega, by rw [getD_append_lt _ _ _ hb1]; exact hb2,
                by rw [getD_append_lt _ _ _ hb1]; exact hb3, ?_, ?_⟩
              · intro j hj hcj
                rcases Nat.lt_succ_iff_lt_or_eq.mp (by simpa using hj) with hj' | rfl
                · rw [getD_append_lt _ _ _ hj'] at hcj ⊢
                  exact hb4 j hj' hcj
                · rw [getD_append_self] at hcj
                  exact absurd hcj (by simp [hcf])
              · intro j hj hcj
                have hj' : j < pre.length := lt_trans hj hb1
                rw [getD_append_lt _ _ _ hj'] at hcj ⊢
                exact hb5 j hj hcj
        have h2 := ih (pre ++ [s]) _ h1
        rw [hlen] at h2
        rw [hsplit, bestSpanAux_cons_skip position s rest pre.length acc hcf]
        exact h2

theorem bestSpanAux_accOk (position : Nat) (spans : List DocSpan) :
    accOk spans position (bestSpanAux position spans 0 none) := by
  have h := bestSpanAux_invariant position spans [] none (by intro t ht; cases ht)
  simpa using h

/-- Claim C1: for the doc spans produced by the sliding-window chunking and
any sub-token position contained in at least one of them,
`_check_is_max_context` returns `True` for exactly one span index, namely
the first-enumerated span among those containing the position that
maximizes `min(left_context, right_context) + 0.01 * span_length` (strict
`>` comparison, so the first span attaining the maximum wins). -/
theorem checkIsMaxContext_unique_owner (docLen maxTok stride position : Nat)
    (spans : List DocSpan) (hspans : docSpans docLen maxTok stride = some spans)
    (hcov : ∃ s ∈ spans, spanContains s position = true) :
    ∃ i, firstArgmaxSpec spans position i ∧ checkIsMaxContext spans i position = true ∧
      ∀ j, checkIsMaxContext spans j position = true → j = i := by
  have hacc := bestSpanAux_accOk position spans
  cases heq : bestSpanAux position spans 0 none with
  | none =>
      rw [heq] at hacc
      obtain ⟨s, hmem, hcont⟩ := hcov
      rw [hacc s hmem] at hcont
      simp at hcont
  | some bpair =>
      obtain ⟨bs, bi⟩ := bpair
      rw [heq] at hacc
      obtain ⟨h1, h2, h3, h4, h5⟩ := hacc
      have hch : ∀ cur, checkIsMaxContext spans cur position = (cur == bi) := by
        intro cur
        unfold checkIsMaxContext
        rw [heq]
      refine ⟨bi, ⟨h1, h2, ?_, ?_⟩, ?_, ?_⟩
      · intro j hj hcj
        rw [← h3]
        exact h4 j hj hcj
      · intro j hj hcj
        rw [← h3]
        exact h5 j hj hcj
      · rw [hch]
        simp
      · intro j hj
        rw [hch] at hj
        simpa using hj

/-- Witness for C1: the three overlapping spans produced for a document of
5 sub-tokens with budget 3 and stride 1, at position 1. -/
theorem checkIsMaxContext_unique_owner_witness :
    ∃ i, firstArgmaxSpec [⟨0, 3⟩, ⟨1, 3⟩, ⟨2, 3⟩] 1 i ∧
      checkIsMaxContext [⟨0, 3⟩, ⟨1, 3⟩, ⟨2, 3⟩] i 1 = true ∧
      ∀ j, checkIsMaxContext [⟨0, 3⟩, ⟨1, 3⟩, ⟨2, 3⟩] j 1 = true → j = i :=
  checkIsMaxContext_unique_owner 5 3 1 1 [⟨0, 3⟩, ⟨1, 3⟩, ⟨2, 3⟩] (by decide)
    ⟨⟨0, 3⟩, by decide, by decide⟩

/-! ### Text re-aligner lemmas -/

/-- Claim C8: every failure branch of `get_final_text` — the predicted text
not occurring in the tokenized normalization of the original text, the
space-stripped forms differing in length, or either end of the
character-index translation failing — returns `orig_text` unchanged. -/
theorem getFinalText_graceful_fallback (basicTok : Str → List Str) (predText origText : Str) :
    (findSub predText (tokTextOf basicTok origText) = none →
      getFinalText basicTok predText origText = origText) ∧
    ((stripSpaces origText).1.length ≠ (stripSpaces (tokTextOf basicTok origText)).1.length →
      getFinalText basicTok predText origText = origText) ∧
    (∀ startPos, findSub predText (tokTextOf basicTok origText) = some startPos →
      (translatePos (invertMap (stripSpaces (tokTextOf basicTok origText)).2)
          (stripSpaces origText).2 (startPos : ℤ) = none ∨
        translatePos (invertMap (stripSpaces (tokTextOf basicTok origText)).2)
          (stripSpaces origText).2 ((startPos : ℤ) + (predText.length : ℤ) - 1) = none) →
      getFinalText basicTok predText origText = origText) := by
  refine ⟨?_, ?_, ?_⟩
  · intro h
    unfold getFinalText
    dsimp only
    rw [h]
  · intro h
    unfold getFinalText
    dsimp only
    cases heq : findSub predText (tokTextOf basicTok origText) with
    | none => rfl
    | some sp =>
        dsimp only
        rw [if_pos h]
  · intro sp hsp hor
    unfold getFinalText
    dsimp only
    rw [hsp]
    dsimp only
    by_cases hlen :
        (stripSpaces origText).1.length ≠ (stripSpaces (tokTextOf basicTok origText)).1.length
    · rw [if_pos hlen]
    · rw [if_neg hlen]
      rcases hor with hor | hor
      · rw [hor]
      · cases h4 : translatePos (invertMap (stripSpaces (tokTextOf basicTok origText)).2)
            (stripSpaces origText).2 (sp : ℤ) with
        | none => rfl
        | some os =>
            dsimp only
            rw [hor]

/-- Witness for C8: a basic tokenizer that drops everything makes the
substring search fail, and the original text is returned unchanged. -/
theorem getFinalText_graceful_fallback_witness :
    getFinalText (fun _ => []) ['a'] ['b'] = ['b'] :=
  (getFinalText_graceful_fallback (fun _ => []) ['a'] ['b']).1 (by decide)

/-! ### Feature length lemmas -/

theorem padLoop_spec (cfg : SpanConfig) (maxSeq : Nat) :
    ∀ (fuel : Nat) (ids mask segs pmask : List Nat),
      maxSeq ≤ fuel + ids.length →
      ids.length ≤ maxSeq → mask.length = ids.length → segs.length = ids.length →
      pmask.length = ids.length →
      (padLoop cfg maxSeq fuel (ids, mask, segs, pmask)).1.length = maxSeq ∧
      (padLoop cfg maxSeq fuel (ids, mask, segs, pmask)).2.1.length = maxSeq ∧
      (padLoop cfg maxSeq fuel (ids, mask, segs, pmask)).2.2.1.length = maxSeq ∧
      (padLoop cfg maxSeq fuel (ids, mask, segs, pmask)).2.2.2.length = maxSeq := by
  intro fuel
  induction fuel with
  | zero =>
      intro ids mask segs pmask hfuel hle hm hs hp
      have : ids.length = maxSeq := by omega
      simp [padLoop, this, hm, hs, hp]
  | succ fuel ih =>
      intro ids mask segs pmask hfuel hle hm hs hp
      rw [padLoop]
      by_cases hlt : ids.length < maxSeq
      · rw [if_pos hlt]
        have := ih (ids ++ [cfg.padToken])
          (mask ++ [if cfg.maskPaddingWithZero then 0 else 1])
          (segs ++ [cfg.padTokenSegmentId]) (pmask ++ [1])
          (by simp; omega) (by simp; omega) (by simp [hm]) (by simp [hs]) (by simp [hp])
        exact this
      · rw [if_neg hlt]
        have : ids.length = maxSeq := by omega
        simp [this, hm, hs, hp]

theorem spanTokens_length (cfg : SpanConfig) (q paraTokens : List Str) :
    (spanTokens cfg q paraTokens).length = q.length + paraTokens.length + 3 := by
  unfold spanTokens
  by_cases h1 : cfg.clsTokenAtEnd <;> by_cases h2 : cfg.sequenceAIsDoc <;>
    simp [h1, h2] <;> omega

theorem spanSegmentIds_length (cfg : SpanConfig) (qL pL : Nat) :
    (spanSegmentIds cfg qL pL).length = qL + pL + 3 := by
  unfold spanSegmentIds
  by_cases h1 : cfg.clsTokenAtEnd <;> by_cases h2 : cfg.sequenceAIsDoc <;>
    simp [h1, h2] <;> omega

theorem spanPMask0_length (cfg : SpanConfig) (qL pL : Nat) :
    (spanPMask0 cfg qL pL).length = qL + pL + 3 := by
  unfold spanPMask0
  by_cases h1 : cfg.clsTokenAtEnd <;> by_cases h2 : cfg.sequenceAIsDoc <;>
    simp [h1, h2] <;> omega

/-- Claim C6: every feature produced with a doc span that fits the budget
has its four positional sequences `input_ids`, `input_mask`, `segment_ids`
and `p_mask` padded to length exactly `max_seq_length`, and the
construction succeeds (the modelled length assertions, which make any
mismatch a fatal error rather than a silent truncation, pass). -/
theorem buildFeature_padding_invariant (cfg : SpanConfig) (convert : Str → Nat)
    (maxSeq uid exIdx : Nat) (queryTokens allDocTokens : List Str)
    (tokToOrigIndex : List Nat) (spans : List DocSpan) (spanIndex : Nat) (imp : Bool)
    (hfit : queryTokens.length + (spans.getD spanIndex default).length + 3 ≤ maxSeq) :
    ∃ f, buildFeature cfg convert maxSeq uid exIdx queryTokens allDocTokens
        tokToOrigIndex spans spanIndex imp = some f ∧
      f.inputIds.length = maxSeq ∧ f.inputMask.length = maxSeq ∧
      f.segmentIds.length = maxSeq ∧ f.pMask.length = maxSeq := by
  have hpara : ((List.range (spans.getD spanIndex default).length).map
      (fun i => allDocTokens.getD ((spans.getD spanIndex default).start + i) [])).length =
      (spans.getD spanIndex default).length := by simp
  have htok : (spanTokens cfg queryTokens
      ((List.range (spans.getD spanIndex default).length).map
        (fun i => allDocTokens.getD ((spans.getD spanIndex default).start + i) []))).length =
      queryTokens.length + (spans.getD spanIndex default).length + 3 := by
    rw [spanTokens_length, hpara]
  have hids : ((spanTokens cfg queryTokens
      ((List.range (spans.getD spanIndex default).length).map
        (fun i => allDocTokens.getD ((spans.getD spanIndex default).start + i) []))).map
        convert).length =
      queryTokens.length + (spans.getD spanIndex default).length + 3 := by
    rw [List.length_map, htok]
  obtain ⟨hA, hB, hC, hD⟩ := padLoop_spec cfg maxSeq maxSeq
    ((spanTokens cfg queryTokens
      ((List.range (spans.getD spanIndex default).length).map
        (fun i => allDocTokens.getD ((spans.getD spanIndex default).start + i) []))).map
        convert)
    (List.replicate ((spanTokens cfg queryTokens
      ((List.range (spans.getD spanIndex default).length).map
        (fun i => allDocTokens.getD ((spans.getD spanIndex default).start + i) []))).map
        convert).length (if cfg.maskPaddingWithZero then 1 else 0))
    (spanSegmentIds cfg queryTokens.length (spans.getD spanIndex default).length)
    (spanPMask0 cfg queryTokens.length (spans.getD spanIndex default).length)
    (by omega) (by omega)
    (by rw [List.length_replicate])
    (by rw [spanSegmentIds_length, hids])
    (by rw [spanPMask0_length, hids])
  unfold buildFeature
  dsimp only
  rw [if_pos ⟨hA, hB, hC⟩]
  exact ⟨_, rfl, hA, hB, hC, hD⟩

/-- Witness for C6: a two-token query and a three-token span padded to
`max_seq_length = 10`. -/
theorem buildFeature_padding_invariant_witness :
    ∃ f, buildFeature
        ⟨false, ['C'], ['S'], 0, 0, 1, 0, 0, true, false⟩
        (fun _ => 7) 10 1000000000 0 [['q'], ['r']] [['d'], ['e'], ['f'], ['g']]
        [0, 1, 2, 3] [⟨0, 3⟩, ⟨1, 3⟩] 0 false = some f ∧
      f.inputIds.length = 10 ∧ f.inputMask.length = 10 ∧
      f.segmentIds.length = 10 ∧ f.pMask.length = 10 :=
  buildFeature_padding_invariant ⟨false, ['C'], ['S'], 0, 0, 1, 0, 0, true, false⟩
    (fun _ => 7) 10 1000000000 0 [['q'], ['r']] [['d'], ['e'], ['f'], ['g']]
    [0, 1, 2, 3] [⟨0, 3⟩, ⟨1, 3⟩] 0 false (by decide)

/-! ### Decoder validity lemmas -/

theorem lookup_mem {α β : Type} [BEq α] [LawfulBEq α] (l : List (α × β)) (k : α) (v : β)
    (h : List.lookup k l = some v) : (k, v) ∈ l := by
  induction l with
  | nil => simp [List.lookup] at h
  | cons kv rest ih =>
      obtain ⟨k1, v1⟩ := kv
      by_cases hbk : k == k1
      · simp only [List.lookup, hbk] at h
        have hk : k = k1 := by simpa using hbk
        have hv : v1 = v := by simpa using h
        subst hk
        subst hv
        exact List.mem_cons_self _ _
      · have hbf : (k == k1) = false := by simpa using hbk
        simp only [List.lookup, hbf] at h
        exact List.mem_cons_of_mem _ (ih h)

/-- Claim C2: every preliminary prediction produced by the standard-head
shortlist enumeration references start/end indices that are keys of the
feature's `token_to_orig_map`, in order, with length at most
`max_answer_length`; the pointer-head enumeration enforces the same
structural filters with `paragraph_len - 1` as the index upper bound
instead of the chunk token length (and, for features whose
`token_to_orig_map` covers the contiguous index block of the document
chunk, its indices are likewise keys of that map). -/
theorem prelimPredictions_validity
    (nBestSize maxAnswerLength startNTop endNTop fi dOff : Nat)
    (f : QAInputFeatures) (r : RawResult) (re : RawResultExtended)
    (hmc : ∀ kv ∈ f.tokenIsMaxContext, dOff ≤ kv.1 ∧
      dictHasKey f.tokenToOrigMap kv.1 = true)
    (hdom : ∀ k ∈ List.range (dOff + f.paragraphLen), dOff ≤ k →
      dictHasKey f.tokenToOrigMap k = true) :
    (∀ p ∈ featurePrelims nBestSize maxAnswerLength fi f r,
      p.startIndex < f.tokens.length ∧ p.endIndex < f.tokens.length ∧
      dictHasKey f.tokenToOrigMap p.startIndex = true ∧
      dictHasKey f.tokenToOrigMap p.endIndex = true ∧
      p.startIndex ≤ p.endIndex ∧ p.endIndex - p.startIndex + 1 ≤ maxAnswerLength) ∧
    (∀ p ∈ featurePrelimsExt startNTop endNTop maxAnswerLength fi f re,
      (p.startIndex : ℤ) < (f.paragraphLen : ℤ) - 1 ∧
      (p.endIndex : ℤ) < (f.paragraphLen : ℤ) - 1 ∧
      p.startIndex ≤ p.endIndex ∧ p.endIndex - p.startIndex + 1 ≤ maxAnswerLength ∧
      dictHasKey f.tokenToOrigMap p.startIndex = true ∧
      dictHasKey f.tokenToOrigMap p.endIndex = true) := by
  constructor
  · intro p hp
    unfold featurePrelims at hp
    rw [List.mem_flatMap] at hp
    obtain ⟨si, _, hp⟩ := hp
    rw [List.mem_filterMap] at hp
    obtain ⟨ei, _, hif⟩ := hp
    by_cases hv : validSpan f maxAnswerLength si ei
    · rw [if_pos hv] at hif
      obtain rfl := Option.some_injective _ hif
      dsimp only
      unfold validSpan at hv
      simp only [Bool.and_eq_true, Bool.not_eq_true', decide_eq_false_iff_not,
        Nat.not_le, Nat.not_lt, not_lt] at hv
      obtain ⟨⟨⟨⟨⟨⟨h1, h2⟩, h3⟩, h4⟩, _⟩, h6⟩, h7⟩ := hv
      exact ⟨h1, h2, h3, h4, by omega, by omega⟩
    · rw [if_neg hv] at hif
      exact Option.noConfusion hif
  · intro p hp
    unfold featurePrelimsExt at hp
    rw [List.mem_flatMap] at hp
    obtain ⟨i, _, hp⟩ := hp
    rw [List.mem_filterMap] at hp
    obtain ⟨j, _, hif⟩ := hp
    by_cases hv : validSpanExt f maxAnswerLength (re.startTopIndex.getD i 0)
        (re.endTopIndex.getD (i * endNTop + j) 0)
    · rw [if_pos hv] at hif
      obtain rfl := Option.some_injective _ hif
      dsimp only
      unfold validSpanExt at hv
      simp only [Bool.and_eq_true, Bool.not_eq_true', decide_eq_false_iff_not,
        not_le, Nat.not_lt] at hv
      obtain ⟨⟨⟨⟨h1, h2⟩, h3⟩, h4⟩, h5⟩ := hv
      have hmctrue : dictGetD f.tokenIsMaxContext (re.startTopIndex.getD i 0) false = true :=
        h3
      have hlk : List.lookup (re.startTopIndex.getD i 0) f.tokenIsMaxContext = some true := by
        unfold dictGetD at hmctrue
        cases hl : List.lookup (re.startTopIndex.getD i 0) f.tokenIsMaxContext with
        | none => rw [hl] at hmctrue; simp at hmctrue
        | some b => rw [hl] at hmctrue; simp at hmctrue; rw [hmctrue]
      have hmem := lookup_mem _ _ _ hlk
      obtain ⟨hdle, hkey⟩ := hmc _ hmem
      refine ⟨h1, h2, by omega, by omega, hkey, ?_⟩
      · apply hdom
        · rw [List.mem_range]
          omega
        · omega
    · rw [if_neg hv] at hif
      exact Option.noConfusion hif

/-- Witness for C2: a BERT-layout feature with a two-token chunk at offset
3, a standard result and a pointer result each yielding one candidate. -/
theorem prelimPredictions_validity_witness :
    (∀ p ∈ featurePrelims 1 2 0
        ⟨1, 0, 0, [['c'], ['q'], ['s'], ['d'], ['e']], [(3, 0), (4, 1)],
          [(3, true), (4, true)], [], [], [], 0, [], 2, false⟩
        ⟨1, [0, 0, 0, 5, 1], [0, 0, 0, 1, 5]⟩,
      p.startIndex < 5 ∧ p.endIndex < 5 ∧
      dictHasKey [(3, 0), (4, 1)] p.startIndex = true ∧
      dictHasKey [(3, 0), (4, 1)] p.endIndex = true ∧
      p.startIndex ≤ p.endIndex ∧ p.endIndex - p.startIndex + 1 ≤ 2) ∧
    (∀ p ∈ featurePrelimsExt 1 1 2 0
        ⟨1, 0, 0, [['c'], ['q'], ['s'], ['d'], ['e']], [(3, 0), (4, 1)],
          [(3, true), (4, true)], [], [], [], 0, [], 2, false⟩
        ⟨1, [0], [3], [0], [3], 0⟩,
      (p.startIndex : ℤ) < (2 : ℤ) - 1 ∧ (p.endIndex : ℤ) < (2 : ℤ) - 1 ∧
      p.startIndex ≤ p.endIndex ∧ p.endIndex - p.startIndex + 1 ≤ 2 ∧
      dictHasKey [(3, 0), (4, 1)] p.startIndex = true ∧
      dictHasKey [(3, 0), (4, 1)] p.endIndex = true) :=
  prelimPredictions_validity 1 2 1 1 0 3
    ⟨1, 0, 0, [['c'], ['q'], ['s'], ['d'], ['e']], [(3, 0), (4, 1)],
      [(3, true), (4, true)], [], [], [], 0, [], 2, false⟩
    ⟨1, [0, 0, 0, 5, 1], [0, 0, 0, 1, 5]⟩ ⟨1, [0], [3], [0], [3], 0⟩
    (by decide) (by decide)

/-! ### Standard-head final selection lemmas -/

theorem selectPrediction_spec (th sn : ℚ) (nb : List NbestPrediction) (pr : List ℚ)
    (out : DecodeOut) (h : selectPrediction true th sn nb pr = some out) :
    ∃ d e, out.scoreDiff = some d ∧
      out.nbest.find? (fun en => !en.text.isEmpty) = some e ∧
      d = out.scoreNull - e.startLogit - e.endLogit ∧
      (out.predText = [] ↔ d > th) ∧
      (¬d > th → out.predText = e.text) := by
  unfold selectPrediction at h
  dsimp only at h
  rw [if_pos rfl] at h
  cases hbn : nb.find? (fun e => !e.text.isEmpty) with
  | none => rw [hbn] at h; exact Option.noConfusion h
  | some e =>
      rw [hbn] at h
      obtain rfl := Option.some_injective _ h
      dsimp only
      have hne : e.text ≠ [] := by
        have hp := List.find?_some hbn
        simp only [Bool.not_eq_true'] at hp
        intro hcon
        rw [hcon] at hp
        simp at hp
      refine ⟨sn - e.startLogit - e.endLogit, e, rfl, hbn, rfl, ?_, ?_⟩
      · constructor
        · intro hp
          by_cases hgt : sn - e.startLogit - e.endLogit > th
          · exact hgt
          · rw [if_neg hgt] at hp
            exact absurd hp hne
        · intro hgt
          rw [if_pos hgt]
      · intro hgt
        rw [if_neg hgt]

/-- Claim C5: in the standard-head decoder with null-answer support, each
example's final prediction is the empty string if and only if the recorded
score difference `score_null - best_non_null_start_logit -
best_non_null_end_logit` exceeds `null_score_diff_threshold`; otherwise it
is the best non-null entry's text; the score difference is the value
recorded in the null-odds output. -/
theorem decodeExample_null_threshold (expF : ℚ → ℚ) (basicTok : Str → List Str)
    (nBestSize maxAnswerLength : Nat) (threshold : ℚ) (docTokens : List Str)
    (features : List QAInputFeatures) (results : List RawResult) (out : DecodeOut)
    (h : decodeExample expF basicTok true nBestSize maxAnswerLength threshold
      docTokens features results = some out) :
    ∃ d e, out.scoreDiff = some d ∧
      out.nbest.find? (fun en => !en.text.isEmpty) = some e ∧
      d = out.scoreNull - e.startLogit - e.endLogit ∧
      (out.predText = [] ↔ d > threshold) ∧
      (¬d > threshold → out.predText = e.text) := by
  unfold decodeExample at h
  cases hpl : prelimLoop true nBestSize maxAnswerLength results features.enum
      ⟨[], 1000000, 0, 0, 0⟩ with
  | none => rw [hpl] at h; exact Option.noConfusion h
  | some st =>
      rw [hpl] at h
      dsimp only at h
      exact selectPrediction_spec _ _ _ _ _ h

/-- Witness for C5: one feature whose best span scores far above the null
candidate, with threshold 0; the score difference `-10` is recorded and
the non-empty best text is reported. -/
theorem decodeExample_null_threshold_witness :
    ∃ d e,
      (DecodeOut.mk ['d', ' ', 'e'] (some (-10))
          [⟨['d', ' ', 'e'], 5, 5⟩, ⟨[], 0, 0⟩] [1 / 2, 1 / 2] 0).scoreDiff = some d ∧
      (DecodeOut.mk ['d', ' ', 'e'] (some (-10))
          [⟨['d', ' ', 'e'], 5, 5⟩, ⟨[], 0, 0⟩] [1 / 2, 1 / 2] 0).nbest.find?
        (fun en => !en.text.isEmpty) = some e ∧
      d = (DecodeOut.mk ['d', ' ', 'e'] (some (-10))
          [⟨['d', ' ', 'e'], 5, 5⟩, ⟨[], 0, 0⟩] [1 / 2, 1 / 2] 0).scoreNull -
        e.startLogit - e.endLogit ∧
      ((DecodeOut.mk ['d', ' ', 'e'] (some (-10))
          [⟨['d', ' ', 'e'], 5, 5⟩, ⟨[], 0, 0⟩] [1 / 2, 1 / 2] 0).predText = [] ↔ d > 0) ∧
      (¬d > 0 → (DecodeOut.mk ['d', ' ', 'e'] (some (-10))
          [⟨['d', ' ', 'e'], 5, 5⟩, ⟨[], 0, 0⟩] [1 / 2, 1 / 2] 0).predText = e.text) :=
  decodeExample_null_threshold (fun _ => 1) splitWs 1 2 0 [['d'], ['e']]
    [⟨1, 0, 0, [['c'], ['q'], ['s'], ['d'], ['e']], [(3, 0), (4, 1)],
      [(3, true), (4, true)], [], [], [], 0, [], 2, false⟩]
    [⟨1, [0, 0, 0, 5, 1], [0, 0, 0, 1, 5]⟩]
    ⟨['d', ' ', 'e'], some (-10), [⟨['d', ' ', 'e'], 5, 5⟩, ⟨[], 0, 0⟩], [1 / 2, 1 / 2], 0⟩
    (by
      norm_num +decide [decodeExample, prelimLoop, lookupResult, featurePrelims,
        getBestIndexes, validSpan, dictHasKey, dictGetD, List.insertionSort,
        List.orderedInsert, nbestLoop, detokenize, joinSpace, replaceStr, replaceStrAux,
        stripWs, whiteSpaceFix, splitWs, splitWsAux, pyIsSpace, getFinalText, tokTextOf,
        findSub, stripSpaces, stripSpacesAux, invertMap, translatePos, nbestPostV2,
        emptyWordStr, ensureNonempty, computeSoftmax, selectPrediction, List.lookup,
        List.intercalate])

/-! ### N-best de-duplication lemmas -/

theorem nbestLoop_invariant (basicTok : Str → List Str) (nBestSize : Nat)
    (features : List QAInputFeatures) (docTokens : List Str) :
    ∀ (preds : List PrelimPrediction) (seen : List Str) (nbest : List NbestPrediction),
      List.Pairwise (fun a b => a.text = b.text → a.text = ([] : Str)) nbest →
      (∀ e ∈ nbest, e.text ≠ [] → e.text ∈ seen) →
      (([] : Str) ∈ seen → ∃ e ∈ nbest, e.text = []) →
      List.Pairwise (fun a b => a.text = b.text → a.text = ([] : Str))
        (nbestLoop basicTok nBestSize features docTokens preds seen nbest).2 ∧
      (∀ e ∈ (nbestLoop basicTok nBestSize features docTokens preds seen nbest).2,
        e.text ≠ [] → e.text ∈ (nbestLoop basicTok nBestSize features docTokens preds seen nbest).1) ∧
      (([] : Str) ∈ (nbestLoop basicTok nBestSize features docTokens preds seen nbest).1 →
        ∃ e ∈ (nbestLoop basicTok nBestSize features docTokens preds seen nbest).2, e.text = []) := by
  intro preds
  induction preds with
  | nil => intro seen nbest h1 h2 h3; exact ⟨h1, h2, h3⟩
  | cons pred rest ih =>
      intro seen nbest h1 h2 h3
      rw [nbestLoop]
      by_cases hfull : nbest.length ≥ nBestSize
      · rw [if_pos hfull]
        exact ⟨h1, h2, h3⟩
      · rw [if_neg hfull]
        by_cases hstart : pred.startIndex > 0
        · rw [if_pos hstart]
          dsimp only
          set finalText := getFinalText basicTok
            (detokenize (((features.getD pred.featureIndex default).tokens.drop
              pred.startIndex).take (pred.endIndex + 1 - pred.startIndex)))
            (joinSpace ((docTokens.drop
              (dictGetD (features.getD pred.featureIndex default).tokenToOrigMap
                pred.startIndex 0)).take
              (dictGetD (features.getD pred.featureIndex default).tokenToOrigMap
                pred.endIndex 0 + 1 -
                dictGetD (features.getD pred.featureIndex default).tokenToOrigMap
                  pred.startIndex 0))) with hft
          by_cases hseen : seen.contains finalText
          · rw [if_pos hseen]
            exact ih seen nbest h1 h2 h3
          · rw [if_neg hseen]
            have hnotmem : finalText ∉ seen := by simpa using hseen
            apply ih
            · rw [List.pairwise_append]
              refine ⟨h1, List.pairwise_singleton _ _, ?_⟩
              intro a ha b hb hab
              rcases List.mem_singleton.mp hb with rfl
              dsimp only at hab
              by_cases haz : a.text = []
              · exact haz
              · exact absurd (hab ▸ h2 a ha haz) hnotmem
            · intro e he
              rcases List.mem_append.mp he with he | he
              · intro hne
                exact List.mem_cons_of_mem _ (h2 e he hne)
              · rcases List.mem_singleton.mp he with rfl
                intro _
                exact List.mem_cons_self _ _
            · intro hmem
              rcases List.mem_cons.mp hmem with heq | hmem
              · exact ⟨⟨finalText, pred.startLogit, pred.endLogit⟩,
                  List.mem_append_right _ (List.mem_singleton_self _), heq.symm⟩
              · obtain ⟨e, he, hez⟩ := h3 hmem
                exact ⟨e, List.mem_append_left _ he, hez⟩
        · rw [if_neg hstart]
          apply ih
          · rw [List.pairwise_append]
            refine ⟨h1, List.pairwise_singleton _ _, ?_⟩
            intro a ha b hb hab
            rcases List.mem_singleton.mp hb with rfl
            exact hab
          · intro e he
            rcases List.mem_append.mp he with he | he
            · intro hne
              exact List.mem_cons_of_mem _ (h2 e he hne)
            · rcases List.mem_singleton.mp he with rfl
              intro hne
              exact absurd rfl hne
          · intro _
            exact ⟨⟨[], pred.startLogit, pred.endLogit⟩,
              List.mem_append_right _ (List.mem_singleton_self _), rfl⟩

theorem nbestPostV2_pairwise (seen : List Str) (nsl nel : ℚ) (nbest : List NbestPrediction)
    (h1 : List.Pairwise (fun a b => a.text = b.text → a.text = ([] : Str)) nbest)
    (h3 : ([] : Str) ∈ seen → ∃ e ∈ nbest, e.text = []) :
    List.Pairwise (fun a b => a.text = b.text → a.text = ([] : Str))
      (nbestPostV2 seen nsl nel nbest) := by
  unfold nbestPostV2
  dsimp only
  by_cases hc : seen.contains ([] : Str)
  · simp only [hc, Bool.not_true, Bool.false_eq_true, if_neg, ite_false]
    by_cases hl : nbest.length = 1
    · rw [if_pos hl]
      obtain ⟨e, he, hez⟩ := h3 (by simpa using hc)
      refine List.pairwise_cons.mpr ⟨?_, h1⟩
      intro b hb hab
      have : nbest = [e] := by
        cases nbest with
        | nil => simp at he
        | cons x xs =>
            cases xs with
            | nil => rcases List.mem_singleton.mp he with rfl; rfl
            | cons y ys => simp at hl
      rw [this] at hb
      rcases List.mem_singleton.mp hb with rfl
      rw [hab, hez]
    · rw [if_neg hl]
      exact h1
  · simp only [hc, Bool.not_false, if_pos, ite_true]
    have happ : List.Pairwise (fun a b => a.text = b.text → a.text = ([] : Str))
        (nbest ++ [⟨[], nsl, nel⟩]) := by
      rw [List.pairwise_append]
      refine ⟨h1, List.pairwise_singleton _ _, ?_⟩
      intro a _ b hb hab
      rcases List.mem_singleton.mp hb with rfl
      exact hab
    by_cases hl : (nbest ++ [(⟨[], nsl, nel⟩ : NbestPrediction)]).length = 1
    · rw [if_pos hl]
      refine List.pairwise_cons.mpr ⟨?_, happ⟩
      intro b hb hab
      have hnb : nbest = [] := by
        simp only [List.length_append, List.length_singleton] at hl
        exact List.length_eq_zero.mp (by omega)
      rw [hnb] at hb
      simp only [List.nil_append] at hb
      rcases List.mem_singleton.mp hb with rfl
      exact hab
    · rw [if_neg hl]
      exact happ

theorem ensureNonempty_pairwise (nbest : List NbestPrediction)
    (h1 : List.Pairwise (fun a b => a.text = b.text → a.text = ([] : Str)) nbest) :
    List.Pairwise (fun a b => a.text = b.text → a.text = ([] : Str))
      (ensureNonempty nbest) := by
  unfold ensureNonempty
  by_cases h : nbest.isEmpty
  · rw [if_pos h]
    exact List.pairwise_singleton _ _
  · rw [if_neg h]
    exact h1

theorem selectPrediction_nbest (v2 : Bool) (th sn : ℚ) (nb : List NbestPrediction)
    (pr : List ℚ) (out : DecodeOut) (h : selectPrediction v2 th sn nb pr = some out) :
    out.nbest = nb := by
  unfold selectPrediction at h
  dsimp only at h
  by_cases hv : v2 = true
  · rw [if_pos hv] at h
    cases hbn : nb.find? (fun e => !e.text.isEmpty) with
    | none => rw [hbn] at h; exact Option.noConfusion h
    | some e =>
        rw [hbn] at h
        obtain rfl := Option.some_injective _ h
        rfl
  · rw [if_neg hv] at h
    cases nb with
    | nil => exact Option.noConfusion h
    | cons e0 tl =>
        obtain rfl := Option.some_injective _ h
        rfl

/-- Claim C7: the texts of an example's final n-best list are pairwise
distinct except for the empty string; with null answers enabled, when the
empty string was not naturally selected it is force-appended carrying the
tracked lowest-null-score logits, and when exactly one candidate then
remains a zero-scored `"empty"` placeholder is inserted ahead of it. -/
theorem decodeExample_nbest_dedup (expF : ℚ → ℚ) (basicTok : Str → List Str) (v2 : Bool)
    (nBestSize maxAnswerLength : Nat) (threshold : ℚ) (docTokens : List Str)
    (features : List QAInputFeatures) (results : List RawResult) (out : DecodeOut)
    (h : decodeExample expF basicTok v2 nBestSize maxAnswerLength threshold
      docTokens features results = some out) :
    List.Pairwise (fun a b => a.text = b.text → a.text = ([] : Str)) out.nbest ∧
    (∀ (seen : List Str) (nsl nel : ℚ) (nb : List NbestPrediction),
      seen.contains ([] : Str) = false →
      NbestPrediction.mk [] nsl nel ∈ nbestPostV2 seen nsl nel nb ∧
      (nb = [] → nbestPostV2 seen nsl nel nb =
        [⟨emptyWordStr, 0, 0⟩, ⟨[], nsl, nel⟩])) := by
  constructor
  · unfold decodeExample at h
    cases hpl : prelimLoop v2 nBestSize maxAnswerLength results features.enum
        ⟨[], 1000000, 0, 0, 0⟩ with
    | none => rw [hpl] at h; exact Option.noConfusion h
    | some st =>
        rw [hpl] at h
        dsimp only at h
        rw [selectPrediction_nbest _ _ _ _ _ _ h]
        apply ensureNonempty_pairwise
        obtain ⟨hp, _, he⟩ := nbestLoop_invariant basicTok nBestSize features docTokens
          ((if v2 then
              st.prelim ++ [⟨st.minNullFeatureIndex, 0, 0, st.nullStartLogit, st.nullEndLogit⟩]
            else st.prelim).insertionSort
            (fun a b => b.startLogit + b.endLogit ≤ a.startLogit + a.endLogit)) [] []
          List.Pairwise.nil (by intro e he; cases he) (by intro hm; cases hm)
        by_cases hv : v2 = true
        · rw [if_pos hv]
          exact nbestPostV2_pairwise _ _ _ _ hp he
        · rw [if_neg hv]
          exact hp
  · intro seen nsl nel nb hc
    constructor
    · unfold nbestPostV2
      dsimp only
      rw [hc]
      simp only [Bool.not_false, if_pos, ite_true]
      by_cases hl : (nb ++ [(⟨[], nsl, nel⟩ : NbestPrediction)]).length = 1
      · rw [if_pos hl]
        exact List.mem_cons_of_mem _ (List.mem_append_right _ (List.mem_singleton_self _))
      · rw [if_neg hl]
        exact List.mem_append_right _ (List.mem_singleton_self _)
    · intro hnb
      subst hnb
      unfold nbestPostV2
      dsimp only
      rw [hc]
      simp

/-- Witness for C7: the same concrete decoded example, whose final n-best
list is `["d e", ""]`. -/
theorem decodeExample_nbest_dedup_witness :
    List.Pairwise (fun a b => a.text = b.text → a.text = ([] : Str))
      (DecodeOut.mk ['d', ' ', 'e'] (some (-10))
        [⟨['d', ' ', 'e'], 5, 5⟩, ⟨[], 0, 0⟩] [1 / 2, 1 / 2] 0).nbest ∧
    (∀ (seen : List Str) (nsl nel : ℚ) (nb : List NbestPrediction),
      seen.contains ([] : Str) = false →
      NbestPrediction.mk [] nsl nel ∈ nbestPostV2 seen nsl nel nb ∧
      (nb = [] → nbestPostV2 seen nsl nel nb =
        [⟨emptyWordStr, 0, 0⟩, ⟨[], nsl, nel⟩])) :=
  decodeExample_nbest_dedup (fun _ => 1) splitWs true 1 2 0 [['d'], ['e']]
    [⟨1, 0, 0, [['c'], ['q'], ['s'], ['d'], ['e']], [(3, 0), (4, 1)],
      [(3, true), (4, true)], [], [], [], 0, [], 2, false⟩]
    [⟨1, [0, 0, 0, 5, 1], [0, 0, 0, 1, 5]⟩]
    ⟨['d', ' ', 'e'], some (-10), [⟨['d', ' ', 'e'], 5, 5⟩, ⟨[], 0, 0⟩], [1 / 2, 1 / 2], 0⟩
    (by
      norm_num +decide [decodeExample, prelimLoop, lookupResult, featurePrelims,
        getBestIndexes, validSpan, dictHasKey, dictGetD, List.insertionSort,
        List.orderedInsert, nbestLoop, detokenize, joinSpace, replaceStr, replaceStrAux,
        stripWs, whiteSpaceFix, splitWs, splitWsAux, pyIsSpace, getFinalText, tokTextOf,
        findSub, stripSpaces, stripSpacesAux, invertMap, translatePos, nbestPostV2,
        emptyWordStr, ensureNonempty, computeSoftmax, selectPrediction, List.lookup,
        List.intercalate])

/-! ### Threshold-sweep lemmas -/

theorem le_foldlMax (l : List ℚ) (b : ℚ) : b ≤ l.foldl max b := by
  induction l generalizing b with
  | nil => exact le_refl _
  | cons x xs ih => exact le_trans (le_max_left b x) (ih (max b x))

theorem mem_le_foldlMax (l : List ℚ) (b t : ℚ) (ht : t ∈ l) : t ≤ l.foldl max b := by
  induction l generalizing b with
  | nil => cases ht
  | cons x xs ih =>
      rcases List.mem_cons.mp ht with rfl | ht
      · exact le_trans (le_max_right b t) (le_foldlMax xs (max b t))
      · exact ih (max b x) ht

theorem sweepLoop_fst : ∀ (ds : List (ℚ × ℚ)) (cur best thresh : ℚ),
    (sweepLoop ds cur best thresh).1 = (prefixTotals cur ds).foldl max best := by
  intro ds
  induction ds with
  | nil => intro cur best thresh; rfl
  | cons dna rest ih =>
      intro cur best thresh
      obtain ⟨d, na⟩ := dna
      rw [sweepLoop, prefixTotals]
      by_cases hgt : cur + d > best
      · rw [if_pos hgt, ih, List.foldl_cons, max_eq_right (le_of_lt hgt)]
      · rw [if_neg hgt, ih, List.foldl_cons, max_eq_left (le_of_not_lt hgt)]

theorem sweepLoop_snd_le : ∀ (ds : List (ℚ × ℚ)) (cur best thresh : ℚ),
    (∀ x ∈ prefixTotals cur ds, x ≤ best) → (sweepLoop ds cur best thresh).2 = thresh := by
  intro ds
  induction ds with
  | nil => intro cur best thresh _; rfl
  | cons dna rest ih =>
      intro cur best thresh hle
      obtain ⟨d, na⟩ := dna
      rw [sweepLoop]
      have h1 : cur + d ≤ best := hle _ (by rw [prefixTotals]; exact List.mem_cons_self _ _)
      rw [if_neg (not_lt.mpr h1)]
      exact ih _ _ _ (fun x hx => hle x (by rw [prefixTotals]; exact List.mem_cons_of_mem _ hx))

theorem sweepLoop_snd_gt : ∀ (ds : List (ℚ × ℚ)) (cur best thresh : ℚ),
    (prefixTotals cur ds).foldl max best > best →
    (sweepLoop ds cur best thresh).2 =
      threshAt ((prefixTotals cur ds).foldl max best) cur ds := by
  intro ds
  induction ds with
  | nil => intro cur best thresh hgt; exact absurd hgt (lt_irrefl _)
  | cons dna rest ih =>
      intro cur best thresh hgt
      obtain ⟨d, na⟩ := dna
      rw [sweepLoop, threshAt]
      rw [prefixTotals] at hgt ⊢
      rw [List.foldl_cons] at hgt ⊢
      by_cases hc : cur + d > best
      · rw [if_pos hc]
        rw [max_eq_right (le_of_lt hc)] at hgt ⊢
        by_cases hM : (prefixTotals (cur + d) rest).foldl max (cur + d) > cur + d
        · have hne : ¬(cur + d = (prefixTotals (cur + d) rest).foldl max (cur + d)) := by
            intro he
            rw [← he] at hM
            exact lt_irrefl _ hM
          rw [if_neg hne]
          exact ih _ _ _ hM
        · have heq : (prefixTotals (cur + d) rest).foldl max (cur + d) = cur + d :=
            le_antisymm (le_of_not_lt hM) (le_foldlMax _ _)
          rw [heq, if_pos rfl]
          exact sweepLoop_snd_le rest (cur + d) (cur + d) na
            (fun x hx => heq ▸ mem_le_foldlMax _ _ _ hx)
      · rw [if_neg hc]
        rw [max_eq_left (le_of_not_lt hc)] at hgt ⊢
        have hne : ¬(cur + d = (prefixTotals (cur + d) rest).foldl max best) := by
          intro he
          rw [← he] at hgt
          exact absurd hgt (not_lt.mpr (le_of_not_lt hc))
        rw [if_neg hne]
        exact ih _ _ _ hgt

/-- Counterexample for C4 as stated: one answered question (score 0,
prediction `"x"`, null odds 1) and one unanswerable question (prediction
`""`, null odds 9). The claimed `+1` increment for a no-gold-answer
question with an empty prediction would yield best score 100 at threshold
9, but `find_best_thresh_v2` increments by `0` there and returns best
score 50 at threshold 0. -/
theorem findBestThreshV2_claim_counterexample :
    findBestThreshV2 [(['a'], ['x']), (['b'], [])] [(['a'], 0), (['b'], 1)]
      [(['a'], 1), (['b'], 9)] [(['a'], true), (['b'], false)] =
      some (50, 0, 0) ∧
    claimedSweep [(['a'], ['x']), (['b'], [])] [(['a'], 0), (['b'], 1)]
      [(['a'], 1), (['b'], 9)] [(['a'], true), (['b'], false)] =
      some (100, 9) ∧
    ¬((50 : ℚ) = 100 ∧ (0 : ℚ) = 9) := by
  have l1 : List.lookup (['a'] : Str) [(['a'], (0 : ℚ)), (['b'], 1)] = some 0 := by decide
  have l2 : List.lookup (['b'] : Str) [(['a'], (0 : ℚ)), (['b'], 1)] = some 1 := by decide
  have l3 : List.lookup (['a'] : Str) [(['a'], true), (['b'], false)] = some true := by
    decide
  have l4 : List.lookup (['b'] : Str) [(['a'], true), (['b'], false)] = some false := by
    decide
  have l5 : List.lookup (['b'] : Str) [(['a'], ['x']), (['b'], ([] : Str))] = some [] := by
    decide
  refine ⟨?_, ?_, by norm_num⟩
  · norm_num +decide [findBestThreshV2, sortByNaProb, List.insertionSort,
      List.orderedInsert, sweepDeltas, sweepLoop, hasAnsLoop, l1, l2, l3, l4, l5]
  · norm_num +decide [claimedSweep, claimedDeltas, sortByNaProb, List.insertionSort,
      List.orderedInsert, specBestScore, specThresh, prefixTotals, threshAt,
      l1, l2, l3, l4, l5]

/-- Claim C4 (amended): in `find_best_thresh_v2` the questions are swept in
ascending null-odds order; the running total starts at the number of
no-answer questions and changes, per scored question, by `0` (not `+1`)
when the question has no gold answer and the system predicted none, by
`-1` when it has no gold answer but the system predicted something, and by
the raw score when it has a gold answer; the returned threshold is the
null-odds value at which the running total first attains its maximum
(`0.0` when the maximum is the initial value), and the returned best score
is that maximum as a percentage of the scored-question count. -/
theorem findBestThreshV2_sweep_spec (predsD : List (Str × Str)) (scores : List (Str × ℚ))
    (naProbs : List (Str × ℚ)) (qidToHasAns : List (Str × Bool)) (b t hv : ℚ)
    (h : findBestThreshV2 predsD scores naProbs qidToHasAns = some (b, t, hv)) :
    List.Pairwise (fun a c : Str × ℚ => a.2 ≤ c.2) (sortByNaProb naProbs) ∧
    ∃ ds, sweepDeltas scores predsD qidToHasAns (sortByNaProb naProbs) = some ds ∧
      b = 100 * specBestScore ((qidToHasAns.filter (fun kv => !kv.2)).length : ℚ) ds /
        (scores.length : ℚ) ∧
      t = specThresh ((qidToHasAns.filter (fun kv => !kv.2)).length : ℚ) ds := by
  constructor
  · unfold sortByNaProb
    haveI ht1 : IsTotal (Str × ℚ) (fun a c => a.2 ≤ c.2) := ⟨fun a c => le_total a.2 c.2⟩
    haveI ht2 : IsTrans (Str × ℚ) (fun a c => a.2 ≤ c.2) :=
      ⟨fun a c e hab hbc => le_trans hab hbc⟩
    exact List.sorted_insertionSort _ _
  · unfold findBestThreshV2 at h
    dsimp only at h
    cases hds : sweepDeltas scores predsD qidToHasAns (sortByNaProb naProbs) with
    | none => rw [hds] at h; exact Option.noConfusion h
    | some ds =>
        rw [hds] at h
        dsimp only at h
        cases hha : hasAnsLoop scores qidToHasAns (sortByNaProb naProbs) with
        | none => rw [hha] at h; exact Option.noConfusion h
        | some hp =>
            rw [hha] at h
            dsimp only at h
            by_cases hz : scores.length = 0 ∨ hp.2 = 0
            · rw [if_pos hz] at h; exact Option.noConfusion h
            · rw [if_neg hz] at h
              simp only [Option.some.injEq, Prod.mk.injEq] at h
              obtain ⟨hb, ht3, _⟩ := h
              refine ⟨ds, rfl, ?_, ?_⟩
              · rw [← hb, sweepLoop_fst]
                rfl
              · rw [← ht3]
                unfold specThresh
                by_cases hgt : specBestScore
                    ((qidToHasAns.filter (fun kv => !kv.2)).length : ℚ) ds >
                    ((qidToHasAns.filter (fun kv => !kv.2)).length : ℚ)
                · rw [if_pos hgt]
                  have hgt2 := hgt
                  unfold specBestScore at hgt2
                  rw [sweepLoop_snd_gt ds _ _ 0 hgt2]
                  rfl
                · rw [if_neg hgt]
                  apply sweepLoop_snd_le
                  intro x hx
                  have hle := mem_le_foldlMax (prefixTotals
                    ((qidToHasAns.filter (fun kv => !kv.2)).length : ℚ) ds)
                    ((qidToHasAns.filter (fun kv => !kv.2)).length : ℚ) x hx
                  have heq : (prefixTotals
                      ((qidToHasAns.filter (fun kv => !kv.2)).length : ℚ) ds).foldl max
                      ((qidToHasAns.filter (fun kv => !kv.2)).length : ℚ) =
                      ((qidToHasAns.filter (fun kv => !kv.2)).length : ℚ) := by
                    refine le_antisymm ?_ (le_foldlMax _ _)
                    have hgt2 := hgt
                    unfold specBestScore at hgt2
                    exact le_of_not_lt hgt2
                  rw [heq] at hle
                  exact hle

/-- Witness for C4 (amended): the sweep characterization applied at the
two-question counterexample input. -/
theorem findBestThreshV2_sweep_spec_witness :
    List.Pairwise (fun a c : Str × ℚ => a.2 ≤ c.2)
      (sortByNaProb [(['a'], 1), (['b'], 9)]) ∧
    ∃ ds, sweepDeltas [(['a'], 0), (['b'], 1)] [(['a'], ['x']), (['b'], [])]
        [(['a'], true), (['b'], false)]
        (sortByNaProb [(['a'], 1), (['b'], 9)]) = some ds ∧
      (50 : ℚ) = 100 * specBestScore
        (([(['a'], true), (['b'], false)].filter (fun kv => !kv.2)).length : ℚ) ds /
        (([(['a'], (0 : ℚ)), (['b'], 1)].length : ℚ)) ∧
      (0 : ℚ) = specThresh
        (([(['a'], true), (['b'], false)].filter (fun kv => !kv.2)).length : ℚ) ds :=
  findBestThreshV2_sweep_spec [(['a'], ['x']), (['b'], [])] [(['a'], 0), (['b'], 1)]
    [(['a'], 1), (['b'], 9)] [(['a'], true), (['b'], false)] 50 0 0
    (by
      have l1 : List.lookup (['a'] : Str) [(['a'], (0 : ℚ)), (['b'], 1)] = some 0 := by
        decide
      have l2 : List.lookup (['b'] : Str) [(['a'], (0 : ℚ)), (['b'], 1)] = some 1 := by
        decide
      have l3 : List.lookup (['a'] : Str) [(['a'], true), (['b'], false)] = some true := by
        decide
      have l4 : List.lookup (['b'] : Str) [(['a'], true), (['b'], false)] = some false := by
        decide
      have l5 : List.lookup (['b'] : Str) [(['a'], ['x']), (['b'], ([] : Str))] =
          some [] := by decide
      norm_num +decide [findBestThreshV2, sortByNaProb, List.insertionSort,
        List.orderedInsert, sweepDeltas, sweepLoop, hasAnsLoop, l1, l2, l3, l4, l5])
